import Mathlib

/-!
Verification development for the ludtwig template linter / formatter.

The development shallowly embeds the parts of the code base that the checked
properties are about:

* the error-recovering Twig parser: the tag grammar of
  `crates/ludtwig-parser/src/grammar/twig/tags.rs` is translated function by
  function; the lexer, the event-parser core operations, the expression
  grammar and the top-level / HTML productions (which live in sibling modules)
  are modelled from the specification document;
* the `indentation` lint rule of `crates/ludtwig/src/check/rules/indentation.rs`
  together with the rule-result data model of `crates/ludtwig/src/check/rule.rs`;
* the directory-walk filter of `src/main.rs` (`is_hidden`, `handle_input_path`);
* the nom-based `vue_block` parser of `libs/twig/src/parser/vue.rs`.

All byte offsets are represented as character indices; every concrete input in
the checked properties is ASCII, where the two notions coincide.
-/

namespace Ludtwig

/-- The closed enum of token kinds and node kinds, from the syntax kind
registry (spec section 3) restricted to the kinds the checked properties
touch.  Token kinds are prefixed with `tk`. -/
inductive SyntaxKind where
  | tkCurlyPercent
  | tkPercentCurly
  | tkOpenCurlyCurly
  | tkCloseCurlyCurly
  | tkLessThan
  | tkLessThanSlash
  | tkGreaterThan
  | tkSlashGreaterThan
  | tkWhitespace
  | tkLineBreak
  | tkWord
  | tkNumber
  | tkComma
  | tkEqual
  | tkDoubleQuotes
  | tkSingleQuotes
  | tkSinglePipe
  | tkOpenParen
  | tkCloseParen
  | tkDot
  | tkBlock
  | tkEndblock
  | tkIf
  | tkElseIf
  | tkElse
  | tkEndif
  | tkFor
  | tkEndfor
  | tkIn
  | tkSet
  | tkEndset
  | tkExtends
  | tkInclude
  | tkWith
  | tkOnly
  | tkUse
  | tkAs
  | tkApply
  | tkEndapply
  | tkAutoescape
  | tkEndautoescape
  | tkDeprecated
  | tkTrue
  | tkFalse
  | tkAnd
  | tkOr
  | tkNot
  | tkUnknown
  | root
  | body
  | error
  | htmlText
  | htmlTag
  | htmlStartingTag
  | htmlEndingTag
  | twigBlock
  | twigStartingBlock
  | twigEndingBlock
  | twigIf
  | twigIfBlock
  | twigElseIfBlock
  | twigElseBlock
  | twigEndifBlock
  | twigFor
  | twigForBlock
  | twigForElseBlock
  | twigEndforBlock
  | twigSet
  | twigSetBlock
  | twigAssignment
  | twigEndsetBlock
  | twigExtends
  | twigInclude
  | twigIncludeWith
  | twigUse
  | twigUseOverride
  | twigApply
  | twigApplyStartingBlock
  | twigApplyEndingBlock
  | twigAutoescape
  | twigAutoescapeStartingBlock
  | twigAutoescapeEndingBlock
  | twigDeprecated
  | twigVar
  | twigExpression
  | twigLiteralName
  | twigLiteralNumber
  | twigLiteralString
  | twigLiteralStringInner
  | twigPipe
  | twigOperand
  | twigArguments
deriving DecidableEq, Repr

/-- A lexeme: kind, verbatim text and the start of its absolute range
(spec section 3, "Token"); the end of the range is `start + text.length`. -/
structure Token where
  kind : SyntaxKind
  text : String
  start : Nat
deriving DecidableEq, Repr

/-- End offset of a token's range. -/
def Token.stop (t : Token) : Nat := t.start + t.text.length

mutual
/-- A node of the lossless concrete syntax tree: either a token leaf or an
inner node with a kind and an ordered list of children (spec section 3,
"Syntax tree").  The child list is a specialised list type so that the tree
walks below can be defined by mutual structural recursion. -/
inductive SyntaxElement where
  | token (t : Token)
  | node (kind : SyntaxKind) (children : ElementList)
deriving DecidableEq, Repr

/-- Ordered list of children of a syntax node. -/
inductive ElementList where
  | nil
  | cons (e : SyntaxElement) (rest : ElementList)
deriving DecidableEq, Repr
end

/-- Build an `ElementList` from an ordinary list. -/
def EL : List SyntaxElement → ElementList
  | [] => .nil
  | e :: rest => .cons e (EL rest)

/-- Forget the specialised list structure. -/
def ElementList.toList : ElementList → List SyntaxElement
  | .nil => []
  | .cons e rest => e :: rest.toList

/-- Append on child lists. -/
def ElementList.append : ElementList → ElementList → ElementList
  | .nil, ys => ys
  | .cons x xs, ys => .cons x (xs.append ys)

/-- The kind of an element (tokens expose their token kind). -/
def SyntaxElement.kind : SyntaxElement → SyntaxKind
  | .token t => t.kind
  | .node k _ => k

/-- The children of an element as an ordinary list (tokens have none). -/
def SyntaxElement.childList : SyntaxElement → List SyntaxElement
  | .token _ => []
  | .node _ cs => cs.toList

mutual
/-- All tokens of an element in document order. -/
def SyntaxElement.tokens : SyntaxElement → List Token
  | .token t => [t]
  | .node _ cs => cs.tokens

/-- All tokens under a child list in document order. -/
def ElementList.tokens : ElementList → List Token
  | .nil => []
  | .cons e rest => e.tokens ++ rest.tokens
end

/-- The byte range of an element: union of its token ranges
(spec section 3: a node's range equals the union of its children's ranges). -/
def SyntaxElement.range (e : SyntaxElement) : Nat × Nat :=
  match e.tokens with
  | [] => (0, 0)
  | t :: rest => (t.start, (rest.getLastD t).stop)

/-- Concatenation of all token texts of an element in document order
(the lossless round-trip reading of the tree). -/
def SyntaxElement.sourceText (e : SyntaxElement) : String :=
  String.join (e.tokens.map Token.text)

/-! ## Lexer

Modelled from the spec: the lexer itself lives in
`crates/ludtwig-parser/src/lexer.rs`, which is not part of the sources under
review; the model follows spec section 4.A: two modes (HTML body and Twig
expression), Twig delimiters switch the mode, keywords are recognised in Twig
expression mode, whitespace runs and line breaks are tokens, and anything
unrecognised becomes a single-character fallback token.  String interpolation
and Twig comments are outside the fragment exercised by the checked
properties and are not modelled. -/

/-- Lexer mode (spec section 4.A): HTML body vs Twig expression. -/
inductive LexMode where
  | html
  | twig
deriving DecidableEq, Repr

/-- Horizontal whitespace (member of a whitespace-run token). -/
def isWsChar (c : Char) : Bool := c = ' ' || c = '\t'

/-- Characters that may form a word (identifier) token. -/
def isWordChar (c : Char) : Bool := c.isAlpha || c.isDigit || c = '_'

/-- Modelled from the spec: keyword recognition of section 4.A, applied in
Twig expression mode only. -/
def keywordKind : String → Option SyntaxKind
  | "block" => some .tkBlock
  | "endblock" => some .tkEndblock
  | "if" => some .tkIf
  | "elseif" => some .tkElseIf
  | "else" => some .tkElse
  | "endif" => some .tkEndif
  | "for" => some .tkFor
  | "endfor" => some .tkEndfor
  | "in" => some .tkIn
  | "set" => some .tkSet
  | "endset" => some .tkEndset
  | "extends" => some .tkExtends
  | "include" => some .tkInclude
  | "with" => some .tkWith
  | "only" => some .tkOnly
  | "use" => some .tkUse
  | "as" => some .tkAs
  | "apply" => some .tkApply
  | "endapply" => some .tkEndapply
  | "autoescape" => some .tkAutoescape
  | "endautoescape" => some .tkEndautoescape
  | "deprecated" => some .tkDeprecated
  | "true" => some .tkTrue
  | "false" => some .tkFalse
  | "and" => some .tkAnd
  | "or" => some .tkOr
  | "not" => some .tkNot
  | _ => none

/-- Modelled from the spec: the lexer loop (section 4.A).  `fuel` bounds the
recursion and is instantiated with the input length, which every step
strictly decreases. -/
def lexGo : Nat → LexMode → Nat → List Char → List Token
  | 0, _, _, _ => []
  | _ + 1, _, _, [] => []
  | fuel + 1, mode, pos, c :: cs =>
    match c, cs with
    | '\x7b', '%' :: rest =>
      ⟨.tkCurlyPercent, "\x7b%", pos⟩ :: lexGo fuel .twig (pos + 2) rest
    | '%', '\x7d' :: rest =>
      ⟨.tkPercentCurly, "%\x7d", pos⟩ :: lexGo fuel .html (pos + 2) rest
    | '\x7b', '\x7b' :: rest =>
      ⟨.tkOpenCurlyCurly, "\x7b\x7b", pos⟩ :: lexGo fuel .twig (pos + 2) rest
    | '\x7d', '\x7d' :: rest =>
      ⟨.tkCloseCurlyCurly, "\x7d\x7d", pos⟩ :: lexGo fuel .html (pos + 2) rest
    | '<', '/' :: rest =>
      ⟨.tkLessThanSlash, "</", pos⟩ :: lexGo fuel mode (pos + 2) rest
    | '/', '>' :: rest =>
      ⟨.tkSlashGreaterThan, "/>", pos⟩ :: lexGo fuel mode (pos + 2) rest
    | '\r', '\n' :: rest =>
      ⟨.tkLineBreak, "\r\n", pos⟩ :: lexGo fuel mode (pos + 2) rest
    | '\n', rest =>
      ⟨.tkLineBreak, "\n", pos⟩ :: lexGo fuel mode (pos + 1) rest
    | '\r', rest =>
      ⟨.tkLineBreak, "\r", pos⟩ :: lexGo fuel mode (pos + 1) rest
    | _, _ =>
      if isWsChar c then
        let run := (c :: cs).takeWhile isWsChar
        ⟨.tkWhitespace, String.mk run, pos⟩ ::
          lexGo fuel mode (pos + run.length) ((c :: cs).dropWhile isWsChar)
      else if c.isDigit then
        let run := (c :: cs).takeWhile Char.isDigit
        ⟨.tkNumber, String.mk run, pos⟩ ::
          lexGo fuel mode (pos + run.length) ((c :: cs).dropWhile Char.isDigit)
      else if isWordChar c then
        let run := (c :: cs).takeWhile isWordChar
        let text := String.mk run
        let kind := match mode with
          | .twig => (keywordKind text).getD .tkWord
          | .html => .tkWord
        ⟨kind, text, pos⟩ ::
          lexGo fuel mode (pos + run.length) ((c :: cs).dropWhile isWordChar)
      else
        let kind : SyntaxKind :=
          if c = ',' then .tkComma
          else if c = '=' then .tkEqual
          else if c = '<' then .tkLessThan
          else if c = '>' then .tkGreaterThan
          else if c = '|' then .tkSinglePipe
          else if c = '(' then .tkOpenParen
          else if c = ')' then .tkCloseParen
          else if c = '.' then .tkDot
          else if c = '"' then .tkDoubleQuotes
          else if c = '\x27' then .tkSingleQuotes
          else .tkUnknown
        ⟨kind, String.mk [c], pos⟩ :: lexGo fuel mode (pos + 1) cs

/-- Lex a source string into the flat token stream. -/
def lex (input : String) : List Token :=
  lexGo (input.length + 1) .html 0 input.data

/-! ## Event-parser core

Modelled from the spec: the parser core (`crates/ludtwig-parser/src/parser.rs`
and its event module) is not part of the sources under review.  Following
spec section 4.C, the parser operates on a pre-materialised vector of
non-trivia tokens; each trivia token (whitespace, line break) is attached to
the next non-trivia token and enters the tree together with it.  Markers and
`precede` are realised directly as tree construction: a completed marker is a
built node, preceding wraps built nodes in a new parent. -/

/-- Whitespace and line breaks are trivia (spec sections 3 and 4.C). -/
def isTrivia (k : SyntaxKind) : Bool :=
  k = .tkWhitespace || k = .tkLineBreak

/-- A non-trivia token together with the trivia tokens attached in front of
it (spec section 4.C: trivia attaches to the next non-trivia token). -/
structure PTok where
  trivia : List Token
  tok : Token
deriving DecidableEq, Repr

/-- Modelled from the spec: grouping of the flat token stream into non-trivia
tokens with attached leading trivia; returns the grouped stream and any
trailing trivia that has no following non-trivia token. -/
def materialize : List Token → List PTok × List Token
  | [] => ([], [])
  | t :: rest =>
    if isTrivia t.kind then
      match materialize rest with
      | (p :: ps, trailing) => ({ p with trivia := t :: p.trivia } :: ps, trailing)
      | ([], trailing) => ([], t :: trailing)
    else
      match materialize rest with
      | (ps, trailing) => (⟨[], t⟩ :: ps, trailing)

/-- A recoverable parse diagnostic: source range, the expected-description
passed to the error builder, and what was found instead (`none` means the
end of the file was reached).  Spec sections 3 and 4.C. -/
structure ParseError where
  startPos : Nat
  endPos : Nat
  expected : String
  found : Option String
deriving DecidableEq, Repr

/-- The rendered message of a parse diagnostic, as the parser tests print
it: `expected E but found F` or `expected E but reached end of file`. -/
def ParseError.message (e : ParseError) : String :=
  "expected " ++ e.expected ++
    (match e.found with
     | some f => " but found " ++ f
     | none => " but reached end of file")

/-- Parser state: remaining token stream, accumulated diagnostics, and the
range of the most recently consumed token (used to position end-of-file
diagnostics). -/
structure PState where
  toks : List PTok
  errors : List ParseError
  lastRange : Nat × Nat
deriving DecidableEq, Repr

/-- Display name of a token kind inside diagnostics ("word", "\x7b%", …). -/
def displayKind : SyntaxKind → String
  | .tkCurlyPercent => "\x7b%"
  | .tkPercentCurly => "%\x7d"
  | .tkOpenCurlyCurly => "\x7b\x7b"
  | .tkCloseCurlyCurly => "\x7d\x7d"
  | .tkLessThan => "<"
  | .tkLessThanSlash => "</"
  | .tkGreaterThan => ">"
  | .tkSlashGreaterThan => "/>"
  | .tkWhitespace => "whitespace"
  | .tkLineBreak => "line break"
  | .tkWord => "word"
  | .tkNumber => "number"
  | .tkComma => ","
  | .tkEqual => "="
  | .tkDoubleQuotes => "\""
  | .tkSingleQuotes => "\x27"
  | .tkSinglePipe => "|"
  | .tkOpenParen => "("
  | .tkCloseParen => ")"
  | .tkDot => "."
  | .tkBlock => "block"
  | .tkEndblock => "endblock"
  | .tkIf => "if"
  | .tkElseIf => "elseif"
  | .tkElse => "else"
  | .tkEndif => "endif"
  | .tkFor => "for"
  | .tkEndfor => "endfor"
  | .tkIn => "in"
  | .tkSet => "set"
  | .tkEndset => "endset"
  | .tkExtends => "extends"
  | .tkInclude => "include"
  | .tkWith => "with"
  | .tkOnly => "only"
  | .tkUse => "use"
  | .tkAs => "as"
  | .tkApply => "apply"
  | .tkEndapply => "endapply"
  | .tkAutoescape => "autoescape"
  | .tkEndautoescape => "endautoescape"
  | .tkDeprecated => "deprecated"
  | .tkTrue => "true"
  | .tkFalse => "false"
  | .tkAnd => "and"
  | .tkOr => "or"
  | .tkNot => "not"
  | _ => "token"

/-- Non-consuming single-token lookahead `at(kind)` (spec section 4.C). -/
def atK (k : SyntaxKind) (st : PState) : Bool :=
  match st.toks with
  | p :: _ => p.tok.kind = k
  | [] => false

/-- Non-consuming lookahead over a set `at_set(&[kinds])`. -/
def atSetK (ks : List SyntaxKind) (st : PState) : Bool :=
  match st.toks with
  | p :: _ => ks.contains p.tok.kind
  | [] => false

/-- Two-token lookahead `at_following(&[k1, k2])` (spec section 4.C). -/
def atFollowing (k1 k2 : SyntaxKind) (st : PState) : Bool :=
  match st.toks with
  | a :: b :: _ => a.tok.kind = k1 && b.tok.kind = k2
  | _ => false

/-- True when the token stream is exhausted. -/
def atEnd (st : PState) : Bool := st.toks.isEmpty

/-- The tree elements contributed by a consumed token: its attached trivia
followed by the token itself. -/
def ptokElements (p : PTok) : List SyntaxElement :=
  p.trivia.map .token ++ [.token p.tok]

/-- `bump()`: consume the current token (with its trivia) and return the
produced tree elements together with the consumed token. -/
def bump (st : PState) : List SyntaxElement × Option Token × PState :=
  match st.toks with
  | [] => ([], none, st)
  | p :: rest =>
    (ptokElements p, some p.tok,
      { st with toks := rest, lastRange := (p.tok.start, p.tok.stop) })

/-- `add_error` at the current position: the diagnostic points at the current
token, or at the range of the last consumed token when the end of the file
was reached (spec section 4.C). -/
def addErr (expected : String) (st : PState) : PState :=
  match st.toks with
  | p :: _ =>
    { st with errors :=
        st.errors ++ [⟨p.tok.start, p.tok.stop, expected, some (displayKind p.tok.kind)⟩] }
  | [] =>
    { st with errors :=
        st.errors ++ [⟨st.lastRange.1, st.lastRange.2, expected, none⟩] }

/-- `add_error` with `.at_token(t)`: the diagnostic points at a specific
already-consumed token. -/
def addErrAtToken (t : Token) (expected : String) (st : PState) : PState :=
  { st with errors :=
      st.errors ++ [⟨t.start, t.stop, expected, some (displayKind t.kind)⟩] }

/-- `expect(kind)`: consume the current token if it has the given kind,
otherwise attach a diagnostic and do not consume (spec section 4.C). -/
def expectK (k : SyntaxKind) (st : PState) : List SyntaxElement × Option Token × PState :=
  if atK k st then bump st
  else ([], none, addErr (displayKind k) st)

/-- Modelled from the spec: `parse_many` of `grammar/mod.rs` — repeat a child
production until the end of input or the stop predicate holds.  `fuel` is
instantiated so that it never runs out on a child that consumes input; a
child that consumes nothing ends the loop. -/
def parseMany (stop : PState → Bool) (child : PState → List SyntaxElement × PState) :
    Nat → PState → List SyntaxElement × PState
  | 0, st => ([], st)
  | fuel + 1, st =>
    if atEnd st || stop st then ([], st)
    else
      let (es, st') := child st
      if st'.toks.length < st.toks.length then
        let (rest, st'') := parseMany stop child fuel st'
        (es ++ rest, st'')
      else (es, st')

/-! ## Literals and expressions

Modelled from the spec: `grammar/twig/literal.rs` and
`grammar/twig/expression.rs` are not part of the sources under review.  The
model follows spec section 4.D and covers the literal fragment that the
checked properties exercise: name literals and number literals (each wrapped
in `TWIG_EXPRESSION` when parsed as an expression), plus a minimal string
literal and pipe used by the `use`/`apply`/`deprecated` headers. -/

/-- Modelled from the spec: `parse_twig_name` — a word token as a
`TWIG_LITERAL_NAME` node, or `none` without consuming. -/
def parse_twig_name (st : PState) : Option SyntaxElement × PState :=
  if atK .tkWord st then
    let (es, _, st) := bump st
    (some (.node .twigLiteralName (EL es)), st)
  else (none, st)

/-- Modelled from the spec: a Twig expression (section 4.D); the model
parses the literal primaries used by the checked properties — a name or a
number — wrapped in `TWIG_EXPRESSION`, and returns `none` on anything else
without consuming. -/
def parse_twig_expression (st : PState) : Option SyntaxElement × PState :=
  if atK .tkWord st then
    let (es, _, st) := bump st
    (some (.node .twigExpression (EL [.node .twigLiteralName (EL es)])), st)
  else if atK .tkNumber st then
    let (es, _, st) := bump st
    (some (.node .twigExpression (EL [.node .twigLiteralNumber (EL es)])), st)
  else (none, st)

/-- Modelled from the spec: `parse_twig_string` restricted to the simple
form used by the modelled headers — an opening quote, a run of inner tokens,
and the matching closing quote. -/
def parse_twig_string (st : PState) : Option SyntaxElement × PState :=
  if atSetK [.tkDoubleQuotes, .tkSingleQuotes] st then
    let q := match st.toks with
      | p :: _ => p.tok.kind
      | [] => SyntaxKind.tkDoubleQuotes
    let (e1, _, st) := bump st
    let (innerEs, st) := parseMany (atK q)
      (fun s => match bump s with | (a, _, s') => (a, s')) (st.toks.length + 1) st
    let inner := SyntaxElement.node .twigLiteralStringInner (EL innerEs)
    let (e2, _, st) := expectK q st
    (some (.node .twigLiteralString (EL (e1 ++ [inner] ++ e2))), st)
  else (none, st)

/-- Modelled from the spec: a function argument is an expression. -/
def parse_twig_function_argument (st : PState) : Option SyntaxElement × PState :=
  parse_twig_expression st

/-- Modelled from the spec: `parse_twig_pipe` — wrap the already-parsed
operand and parse `| name` as `TWIG_PIPE\x7boperand, |, operand\x7d`
(section 4.D). -/
def parse_twig_pipe (prev : SyntaxElement) (st : PState) : SyntaxElement × PState :=
  let (e1, _, st) := bump st
  let (e2, st) :=
    match parse_twig_name st with
    | (some e, st') => ([SyntaxElement.node .twigOperand (EL [e])], st')
    | (none, st') => ([], addErr "twig filter name" st')
  (SyntaxElement.node .twigPipe
    (EL ([SyntaxElement.node .twigOperand (EL [prev])] ++ e1 ++ e2)), st)

/-! ## Twig tag grammar

Translated from `crates/ludtwig-parser/src/grammar/twig/tags.rs`.  Each
function receives the already-consumed elements of the opening marker
(the `\x7b%` token with its trivia) as `outer`, mirroring the `Marker`
argument of the source, and the child parser for body productions, mirroring
`ParseFunction`. -/

/-- The loop over `NAME (, NAME)*` declarations of `parse_twig_set`
(tags.rs lines 350–367): the `parse_many` call with the captured
`declaration_count` counter. -/
def parse_twig_set_decls : Nat → PState → List SyntaxElement × Nat × PState
  | 0, st => ([], 0, st)
  | fuel + 1, st =>
    if atEnd st || atSetK [.tkEqual, .tkPercentCurly] st then ([], 0, st)
    else
      let (es1, cnt1, st1) :=
        match parse_twig_name st with
        | (some e, st') => ([e], 1, st')
        | (none, st') => ([], 0, addErr "twig variable name" st')
      let (es2, st2) :=
        if atK .tkComma st1 then
          match bump st1 with
          | (es, _, st') => (es, st')
        else ([], st1)
      if st2.toks.length < st.toks.length then
        let (esr, cntr, str) := parse_twig_set_decls fuel st2
        (es1 ++ es2 ++ esr, cnt1 + cntr, str)
      else (es1 ++ es2, cnt1, st2)

/-- The loop over `EXPR (, EXPR)*` after `=` of `parse_twig_set`
(tags.rs lines 378–393): the `parse_many` call with the captured
`assignment_count` counter. -/
def parse_twig_set_exprs : Nat → PState → List SyntaxElement × Nat × PState
  | 0, st => ([], 0, st)
  | fuel + 1, st =>
    if atEnd st || atK .tkPercentCurly st then ([], 0, st)
    else
      let (es1, cnt1, st1) :=
        match parse_twig_expression st with
        | (some e, st') => ([e], 1, st')
        | (none, st') => ([], 0, addErr "twig expression" st')
      let (es2, st2) :=
        if atK .tkComma st1 then
          match bump st1 with
          | (es, _, st') => (es, st')
        else ([], st1)
      if st2.toks.length < st.toks.length then
        let (esr, cntr, str) := parse_twig_set_exprs fuel st2
        (es1 ++ es2 ++ esr, cnt1 + cntr, str)
      else (es1 ++ es2, cnt1, st2)

/-- `parse_twig_set` (tags.rs lines 342–437). -/
def parse_twig_set (child : PState → List SyntaxElement × PState)
    (outer : List SyntaxElement) (st : PState) : SyntaxElement × PState :=
  let (eSet, _, st) := bump st
  let (declEs, declarationCount, st) := parse_twig_set_decls (st.toks.length + 1) st
  let st := if declarationCount = 0 then addErr "twig variable name" st else st
  let (isAssignedByEqual, eqEs, exprEs, st) :=
    if atK .tkEqual st then
      let (eEq, _, st) := bump st
      let (aEs, assignmentCount, st) := parse_twig_set_exprs (st.toks.length + 1) st
      let st :=
        if declarationCount ≠ assignmentCount then
          addErr ("a total of " ++ Nat.repr declarationCount ++
            " twig expressions (same amount as declarations) instead of " ++
            Nat.repr assignmentCount) st
        else st
      (true, eEq, aEs, st)
    else
      let st :=
        if declarationCount > 1 then
          addErr ("= followed by " ++ Nat.repr declarationCount ++ " twig expressions") st
        else st
      (false, [], [], st)
  let assignment := SyntaxElement.node .twigAssignment (EL (declEs ++ eqEs ++ exprEs))
  let (ePc, _, st) := expectK .tkPercentCurly st
  let setBlock := SyntaxElement.node .twigSetBlock (EL (outer ++ eSet ++ [assignment] ++ ePc))
  if !isAssignedByEqual then
    let (bodyEs, st) :=
      parseMany (atFollowing .tkCurlyPercent .tkEndset) child (st.toks.length + 1) st
    let bodyNode := SyntaxElement.node .body (EL bodyEs)
    let (f1, _, st) := expectK .tkCurlyPercent st
    let (f2, _, st) := expectK .tkEndset st
    let (f3, _, st) := expectK .tkPercentCurly st
    let endBlock := SyntaxElement.node .twigEndsetBlock (EL (f1 ++ f2 ++ f3))
    (SyntaxElement.node .twigSet (EL [setBlock, bodyNode, endBlock]), st)
  else
    (SyntaxElement.node .twigSet (EL [setBlock]), st)

/-- `parse_twig_block` (tags.rs lines 439–497). -/
def parse_twig_block (child : PState → List SyntaxElement × PState)
    (outer : List SyntaxElement) (st : PState) : SyntaxElement × PState :=
  let (eBlock, _, st) := bump st
  let (eName, blockNameTok, st) := expectK .tkWord st
  let blockName := blockNameTok.map Token.text
  let (foundShortcut, eExpr, st) :=
    if !atK .tkPercentCurly st then
      match parse_twig_expression st with
      | (none, st') => (false, [], addErr "twig expression or \x27%\x7d\x27" st')
      | (some e, st') => (true, [e], st')
    else (false, [], st)
  let (ePc, _, st) := expectK .tkPercentCurly st
  let startingBlock :=
    SyntaxElement.node .twigStartingBlock (EL (outer ++ eBlock ++ eName ++ eExpr ++ ePc))
  if !foundShortcut then
    let (bodyEs, st) :=
      parseMany (atFollowing .tkCurlyPercent .tkEndblock) child (st.toks.length + 1) st
    let bodyNode := SyntaxElement.node .body (EL bodyEs)
    let (f1, _, st) := expectK .tkCurlyPercent st
    let (f2, _, st) := expectK .tkEndblock st
    let (f3, st) :=
      if atK .tkWord st then
        let (es, endNameTok, st) := bump st
        match endNameTok, blockName with
        | some w, some bn =>
          if w.text ≠ bn then
            (es, addErrAtToken w
              ("nothing or same twig block name as opening (" ++ bn ++ ")") st)
          else (es, st)
        | _, _ => (es, st)
      else ([], st)
    let (f4, _, st) := expectK .tkPercentCurly st
    let endingBlock := SyntaxElement.node .twigEndingBlock (EL (f1 ++ f2 ++ f3 ++ f4))
    (SyntaxElement.node .twigBlock (EL [startingBlock, bodyNode, endingBlock]), st)
  else
    (SyntaxElement.node .twigBlock (EL [startingBlock]), st)

/-- The branch loop of `parse_twig_if` (tags.rs lines 516–556): parse a body,
stop at `endif`, continue over `elseif`/`else` branch headers, and stop when
no further branch is found. -/
def parse_twig_if_branches (child : PState → List SyntaxElement × PState) :
    Nat → PState → List SyntaxElement × PState
  | 0, st => ([], st)
  | fuel + 1, st =>
    let stop := fun s =>
      atFollowing .tkCurlyPercent .tkEndif s ||
      atFollowing .tkCurlyPercent .tkElseIf s ||
      atFollowing .tkCurlyPercent .tkElse s
    let (bodyEs, st) := parseMany stop child (st.toks.length + 1) st
    let bodyNode := SyntaxElement.node .body (EL bodyEs)
    if atFollowing .tkCurlyPercent .tkEndif st then ([bodyNode], st)
    else if atFollowing .tkCurlyPercent .tkElseIf st then
      let (e1, _, st) := bump st
      let (e2, _, st) := bump st
      let (e3, st) :=
        match parse_twig_expression st with
        | (some e, st') => ([e], st')
        | (none, st') => ([], addErr "twig expression" st')
      let (e4, _, st) := expectK .tkPercentCurly st
      let branch := SyntaxElement.node .twigElseIfBlock (EL (e1 ++ e2 ++ e3 ++ e4))
      let (rest, st) := parse_twig_if_branches child fuel st
      (bodyNode :: branch :: rest, st)
    else if atFollowing .tkCurlyPercent .tkElse st then
      let (e1, _, st) := bump st
      let (e2, _, st) := bump st
      let (e3, _, st) := expectK .tkPercentCurly st
      let branch := SyntaxElement.node .twigElseBlock (EL (e1 ++ e2 ++ e3))
      let (rest, st) := parse_twig_if_branches child fuel st
      (bodyNode :: branch :: rest, st)
    else ([bodyNode], st)

/-- `parse_twig_if` (tags.rs lines 499–565). -/
def parse_twig_if (child : PState → List SyntaxElement × PState)
    (outer : List SyntaxElement) (st : PState) : SyntaxElement × PState :=
  let (eIf, _, st) := bump st
  let (eExpr, st) :=
    match parse_twig_expression st with
    | (some e, st') => ([e], st')
    | (none, st') => ([], addErr "twig expression" st')
  let (ePc, _, st) := expectK .tkPercentCurly st
  let ifBlock := SyntaxElement.node .twigIfBlock (EL (outer ++ eIf ++ eExpr ++ ePc))
  let (branchEs, st) := parse_twig_if_branches child (st.toks.length + 1) st
  let (f1, _, st) := expectK .tkCurlyPercent st
  let (f2, _, st) := expectK .tkEndif st
  let (f3, _, st) := expectK .tkPercentCurly st
  let endBlock := SyntaxElement.node .twigEndifBlock (EL (f1 ++ f2 ++ f3))
  (SyntaxElement.node .twigIf (EL (ifBlock :: branchEs ++ [endBlock])), st)

/-- `parse_twig_for` (tags.rs lines 270–340). -/
def parse_twig_for (child : PState → List SyntaxElement × PState)
    (outer : List SyntaxElement) (st : PState) : SyntaxElement × PState :=
  let (eFor, _, st) := bump st
  let (eKey, st) :=
    match parse_twig_name st with
    | (some e, st') => ([e], st')
    | (none, st') => ([], addErr "variable name" st')
  let (eVal, st) :=
    if atK .tkComma st then
      let (ec, _, st) := bump st
      match parse_twig_name st with
      | (some e, st') => (ec ++ [e], st')
      | (none, st') => (ec, addErr "variable name" st')
    else ([], st)
  let (eIn, _, st) := expectK .tkIn st
  let (eExpr, st) :=
    match parse_twig_expression st with
    | (some e, st') => ([e], st')
    | (none, st') => ([], addErr "twig expression" st')
  let (ePc, _, st) := expectK .tkPercentCurly st
  let forBlock :=
    SyntaxElement.node .twigForBlock (EL (outer ++ eFor ++ eKey ++ eVal ++ eIn ++ eExpr ++ ePc))
  let bodyStop := fun s =>
    atFollowing .tkCurlyPercent .tkEndfor s || atFollowing .tkCurlyPercent .tkElse s
  let (bodyEs, st) := parseMany bodyStop child (st.toks.length + 1) st
  let bodyNode := SyntaxElement.node .body (EL bodyEs)
  let (elseEs, st) :=
    if atFollowing .tkCurlyPercent .tkElse st then
      let (e1, _, st) := bump st
      let (e2, _, st) := bump st
      let (e3, _, st) := expectK .tkPercentCurly st
      let elseBlock := SyntaxElement.node .twigForElseBlock (EL (e1 ++ e2 ++ e3))
      let (b2Es, st) :=
        parseMany (atFollowing .tkCurlyPercent .tkEndfor) child (st.toks.length + 1) st
      ([elseBlock, SyntaxElement.node .body (EL b2Es)], st)
    else ([], st)
  let (f1, _, st) := expectK .tkCurlyPercent st
  let (f2, _, st) := expectK .tkEndfor st
  let (f3, _, st) := expectK .tkPercentCurly st
  let endBlock := SyntaxElement.node .twigEndforBlock (EL (f1 ++ f2 ++ f3))
  (SyntaxElement.node .twigFor (EL (forBlock :: bodyNode :: elseEs ++ [endBlock])), st)

/-- `parse_twig_extends` (tags.rs lines 257–268). -/
def parse_twig_extends (outer : List SyntaxElement) (st : PState) : SyntaxElement × PState :=
  let (eKw, _, st) := bump st
  let (eExpr, st) :=
    match parse_twig_expression st with
    | (some e, st') => ([e], st')
    | (none, st') => ([], addErr "twig expression" st')
  let (ePc, _, st) := expectK .tkPercentCurly st
  (SyntaxElement.node .twigExtends (EL (outer ++ eKw ++ eExpr ++ ePc)), st)

/-- `parse_twig_include` (tags.rs lines 227–255); the `ignore missing`
lookahead token of the source lexer is outside the modelled lexer fragment,
so the flag is not modelled. -/
def parse_twig_include (outer : List SyntaxElement) (st : PState) : SyntaxElement × PState :=
  let (eKw, _, st) := bump st
  let (eExpr, st) :=
    match parse_twig_expression st with
    | (some e, st') => ([e], st')
    | (none, st') => ([], addErr "twig expression as template name" st')
  let (eWith, st) :=
    if atK .tkWith st then
      let (e1, _, st) := bump st
      let (e2, st) :=
        match parse_twig_expression st with
        | (some e, st') => ([e], st')
        | (none, st') => ([], addErr "twig expression as with value" st')
      ([SyntaxElement.node .twigIncludeWith (EL (e1 ++ e2))], st)
    else ([], st)
  let (eOnly, st) :=
    if atK .tkOnly st then
      let (e, _, st) := bump st
      (e, st)
    else ([], st)
  let (ePc, _, st) := expectK .tkPercentCurly st
  (SyntaxElement.node .twigInclude (EL (outer ++ eKw ++ eExpr ++ eWith ++ eOnly ++ ePc)), st)

/-- The loop over `NAME as NAME (, …)*` overrides of `parse_twig_use`
(tags.rs lines 192–213): the `parse_many` call with the captured
`override_count` counter. -/
def parse_twig_use_overrides : Nat → PState → List SyntaxElement × Nat × PState
  | 0, st => ([], 0, st)
  | fuel + 1, st =>
    if atEnd st || atK .tkPercentCurly st then ([], 0, st)
    else
      let (es1, st1) :=
        match parse_twig_name st with
        | (some e, st') => ([e], st')
        | (none, st') => ([], addErr "block name" st')
      let (es2, _, st2) := expectK .tkAs st1
      let (es3, st3) :=
        match parse_twig_name st2 with
        | (some e, st') => ([e], st')
        | (none, st') => ([], addErr "block name" st')
      let override := SyntaxElement.node .twigUseOverride (EL (es1 ++ es2 ++ es3))
      let (es4, st4) :=
        if atK .tkComma st3 then
          match bump st3 with
          | (es, _, st') => (es, st')
        else ([], st3)
      if st4.toks.length < st.toks.length then
        let (esr, cntr, str) := parse_twig_use_overrides fuel st4
        (override :: es4 ++ esr, 1 + cntr, str)
      else (override :: es4, 1, st4)

/-- `parse_twig_use` (tags.rs lines 179–225). -/
def parse_twig_use (outer : List SyntaxElement) (st : PState) : SyntaxElement × PState :=
  let (eKw, _, st) := bump st
  let (eStr, st) :=
    match parse_twig_string st with
    | (some e, st') => ([e], st')
    | (none, st') => ([], addErr "twig string as template" st')
  let (eWith, st) :=
    if atK .tkWith st then
      let (e1, _, st) := bump st
      let (es, overrideCount, st) := parse_twig_use_overrides (st.toks.length + 1) st
      let st :=
        if overrideCount < 1 then addErr "at least one block name as block name" st
        else st
      (e1 ++ es, st)
    else ([], st)
  let (ePc, _, st) := expectK .tkPercentCurly st
  (SyntaxElement.node .twigUse (EL (outer ++ eKw ++ eStr ++ eWith ++ ePc)), st)

/-- The piped-filter loop of `parse_twig_apply` (tags.rs lines 140–148). -/
def parse_twig_apply_pipes (node : SyntaxElement) :
    Nat → PState → SyntaxElement × PState
  | 0, st => (node, st)
  | fuel + 1, st =>
    if atEnd st || atK .tkPercentCurly st then (node, st)
    else if atK .tkSinglePipe st then
      let (node', st') := parse_twig_pipe node st
      parse_twig_apply_pipes node' fuel st'
    else (node, st)

/-- `parse_twig_apply` (tags.rs lines 110–177). -/
def parse_twig_apply (child : PState → List SyntaxElement × PState)
    (outer : List SyntaxElement) (st : PState) : SyntaxElement × PState :=
  let (eKw, _, st) := bump st
  let (eFilter, st) :=
    match parse_twig_name st with
    | (some nameNode, st) =>
      let (withArgs, st) :=
        if atK .tkOpenParen st then
          let (p1, _, st) := bump st
          let (argEs, st) := parseMany (atSetK [.tkPercentCurly, .tkCloseParen])
            (fun s =>
              let (es, s') :=
                match parse_twig_function_argument s with
                | (some e, s') => ([e], s')
                | (none, s') => ([], s')
              if atK .tkComma s' then
                match bump s' with
                | (cs, _, s'') => (es ++ cs, s'')
              else (es, s'))
            (st.toks.length + 1) st
          let args := SyntaxElement.node .twigArguments (EL argEs)
          let (p2, _, st) := expectK .tkCloseParen st
          (p1 ++ [args] ++ p2, st)
        else ([], st)
      let filterHead := SyntaxElement.node .twigOperand (EL (nameNode :: withArgs))
      let (piped, st) := parse_twig_apply_pipes filterHead (st.toks.length + 1) st
      ([piped], st)
    | (none, st) => ([], addErr "twig filter" st)
  let (ePc, _, st) := expectK .tkPercentCurly st
  let startingBlock :=
    SyntaxElement.node .twigApplyStartingBlock (EL (outer ++ eKw ++ eFilter ++ ePc))
  let (bodyEs, st) :=
    parseMany (atFollowing .tkCurlyPercent .tkEndapply) child (st.toks.length + 1) st
  let bodyNode := SyntaxElement.node .body (EL bodyEs)
  let (f1, _, st) := expectK .tkCurlyPercent st
  let (f2, _, st) := expectK .tkEndapply st
  let (f3, _, st) := expectK .tkPercentCurly st
  let endBlock := SyntaxElement.node .twigApplyEndingBlock (EL (f1 ++ f2 ++ f3))
  (SyntaxElement.node .twigApply (EL [startingBlock, bodyNode, endBlock]), st)

/-- `parse_twig_autoescape` (tags.rs lines 66–108). -/
def parse_twig_autoescape (child : PState → List SyntaxElement × PState)
    (outer : List SyntaxElement) (st : PState) : SyntaxElement × PState :=
  let (eKw, _, st) := bump st
  let (eArg, st) :=
    if atSetK [.tkDoubleQuotes, .tkSingleQuotes] st then
      match parse_twig_string st with
      | (some e, st') => ([e], st')
      | (none, st') => ([], st')
    else if atK .tkFalse st then
      let (e, _, st) := bump st
      (e, st)
    else if !atK .tkPercentCurly st then
      ([], addErr "twig escape strategy as string or \x27false\x27" st)
    else ([], st)
  let (ePc, _, st) := expectK .tkPercentCurly st
  let startingBlock :=
    SyntaxElement.node .twigAutoescapeStartingBlock (EL (outer ++ eKw ++ eArg ++ ePc))
  let (bodyEs, st) :=
    parseMany (atFollowing .tkCurlyPercent .tkEndautoescape) child (st.toks.length + 1) st
  let bodyNode := SyntaxElement.node .body (EL bodyEs)
  let (f1, _, st) := expectK .tkCurlyPercent st
  let (f2, _, st) := expectK .tkEndautoescape st
  let (f3, _, st) := expectK .tkPercentCurly st
  let endBlock := SyntaxElement.node .twigAutoescapeEndingBlock (EL (f1 ++ f2 ++ f3))
  (SyntaxElement.node .twigAutoescape (EL [startingBlock, bodyNode, endBlock]), st)

/-- `parse_twig_deprecated` (tags.rs lines 52–64). -/
def parse_twig_deprecated (outer : List SyntaxElement) (st : PState) : SyntaxElement × PState :=
  let (eKw, _, st) := bump st
  let (eStr, st) :=
    if atSetK [.tkDoubleQuotes, .tkSingleQuotes] st then
      match parse_twig_string st with
      | (some e, st') => ([e], st')
      | (none, st') => ([], st')
    else ([], addErr "twig deprecation message as string" st)
  let (ePc, _, st) := expectK .tkPercentCurly st
  (SyntaxElement.node .twigDeprecated (EL (outer ++ eKw ++ eStr ++ ePc)), st)

/-- `parse_twig_block_statement` (tags.rs lines 13–50): dispatch on the
keyword after `\x7b%`; an unrecognised keyword yields an `ERROR` node
covering only the `\x7b%` token plus a diagnostic, without consuming the
offending token. -/
def parse_twig_block_statement (child : PState → List SyntaxElement × PState)
    (st : PState) : List SyntaxElement × PState :=
  let (m, _, st) := bump st
  if atK .tkBlock st then
    let (e, st) := parse_twig_block child m st
    ([e], st)
  else if atK .tkIf st then
    let (e, st) := parse_twig_if child m st
    ([e], st)
  else if atK .tkSet st then
    let (e, st) := parse_twig_set child m st
    ([e], st)
  else if atK .tkFor st then
    let (e, st) := parse_twig_for child m st
    ([e], st)
  else if atK .tkExtends st then
    let (e, st) := parse_twig_extends m st
    ([e], st)
  else if atK .tkInclude st then
    let (e, st) := parse_twig_include m st
    ([e], st)
  else if atK .tkUse st then
    let (e, st) := parse_twig_use m st
    ([e], st)
  else if atK .tkApply st then
    let (e, st) := parse_twig_apply child m st
    ([e], st)
  else if atK .tkAutoescape st then
    let (e, st) := parse_twig_autoescape child m st
    ([e], st)
  else if atK .tkDeprecated st then
    let (e, st) := parse_twig_deprecated m st
    ([e], st)
  else
    let st := addErr
      "\x27block\x27, \x27if\x27, \x27set\x27 or \x27for\x27 (nothing else supported yet)" st
    ([SyntaxElement.node .error (EL m)], st)

/-! ## Top level and HTML

Modelled from the spec: the outer HTML grammar and the top-level dispatcher
(`grammar/mod.rs`, `grammar/html.rs`) are not part of the sources under
review.  The model follows spec section 4.D "Top level": dispatch on `\x7b%`,
`\x7b\x7b`, `<`+name, and otherwise collect an `HTML_TEXT` run terminated by
the next sentinel.  HTML tag bodies are bounded by the follow-set discipline
of section 4.C: a body stops at `</` or at a `\x7b%` opener followed by a
closing/branching keyword of an enclosing Twig production. -/

/-- Modelled from the spec: sentinels that terminate an `HTML_TEXT` run
(section 4.D top level). -/
def htmlTextSentinel (st : PState) : Bool :=
  atSetK [.tkCurlyPercent, .tkOpenCurlyCurly, .tkLessThan, .tkLessThanSlash] st

/-- Modelled from the spec: an `HTML_TEXT` run — consume tokens until a
top-level sentinel; produce no node when nothing was consumed. -/
def parse_html_text (st : PState) : List SyntaxElement × PState :=
  let (es, st') := parseMany htmlTextSentinel
    (fun s => match bump s with | (a, _, s') => (a, s')) (st.toks.length + 1) st
  match es with
  | [] => ([], st')
  | _ => ([SyntaxElement.node .htmlText (EL es)], st')

/-- Modelled from the spec: a Twig variable `\x7b\x7b expression \x7d\x7d`
wrapped as `TWIG_VAR` (section 4.D top level). -/
def parse_twig_var (st : PState) : List SyntaxElement × PState :=
  let (e1, _, st) := bump st
  let (e2, st) :=
    match parse_twig_expression st with
    | (some e, st') => ([e], st')
    | (none, st') => ([], addErr "twig expression" st')
  let (e3, _, st) := expectK .tkCloseCurlyCurly st
  ([SyntaxElement.node .twigVar (EL (e1 ++ e2 ++ e3))], st)

/-- Modelled from the spec: closing or branching keywords of enclosing Twig
productions; a `\x7b%` followed by one of these ends an HTML tag body
(follow-set discipline, sections 4.C and 7). -/
def twigClosingKeywords : List SyntaxKind :=
  [.tkEndblock, .tkEndif, .tkEndfor, .tkEndset, .tkEndapply, .tkEndautoescape,
   .tkElseIf, .tkElse]

/-- True when the parser is at `\x7b%` followed by a closing or branching
keyword of an enclosing Twig production. -/
def atTwigClosing (st : PState) : Bool :=
  twigClosingKeywords.any (fun k => atFollowing .tkCurlyPercent k st)

/-- Modelled from the spec: an HTML tag — `< name attributes* >` as
`HTML_STARTING_TAG` (self-closing `/>` has no body), a `BODY` bounded by
`</` or an enclosing Twig closer, and a `</ name >` `HTML_ENDING_TAG`
(section 4.D top level). -/
def parse_html_tag (child : PState → List SyntaxElement × PState)
    (st : PState) : List SyntaxElement × PState :=
  let (e1, _, st) := bump st
  let (e2, _, st) := bump st
  let (attrEs, st) := parseMany
    (atSetK [.tkGreaterThan, .tkSlashGreaterThan, .tkCurlyPercent, .tkOpenCurlyCurly])
    (fun s => match bump s with | (a, _, s') => (a, s')) (st.toks.length + 1) st
  if atK .tkSlashGreaterThan st then
    let (e3, _, st) := bump st
    let startingTag := SyntaxElement.node .htmlStartingTag (EL (e1 ++ e2 ++ attrEs ++ e3))
    ([SyntaxElement.node .htmlTag (EL [startingTag])], st)
  else
    let (e3, _, st) := expectK .tkGreaterThan st
    let startingTag := SyntaxElement.node .htmlStartingTag (EL (e1 ++ e2 ++ attrEs ++ e3))
    let (bodyEs, st) := parseMany
      (fun s => atK .tkLessThanSlash s || atTwigClosing s)
      child (st.toks.length + 1) st
    let bodyNode := SyntaxElement.node .body (EL bodyEs)
    let (f1, _, st) := expectK .tkLessThanSlash st
    let (f2, _, st) := expectK .tkWord st
    let (f3, _, st) := expectK .tkGreaterThan st
    let endingTag := SyntaxElement.node .htmlEndingTag (EL (f1 ++ f2 ++ f3))
    ([SyntaxElement.node .htmlTag (EL [startingTag, bodyNode, endingTag])], st)

/-- Modelled from the spec: the top-level / child dispatcher (section 4.D
"Top level"); `fuel` bounds the nesting depth and is instantiated with the
token count, which every nested production strictly decreases. -/
def parseAnyElement : Nat → PState → List SyntaxElement × PState
  | 0, st => ([], st)
  | fuel + 1, st =>
    if atK .tkCurlyPercent st then parse_twig_block_statement (parseAnyElement fuel) st
    else if atK .tkOpenCurlyCurly st then parse_twig_var st
    else if atFollowing .tkLessThan .tkWord st then parse_html_tag (parseAnyElement fuel) st
    else if atEnd st || htmlTextSentinel st then ([], st)
    else parse_html_text st

/-- Parse a source string into the root of the concrete syntax tree and the
list of recoverable diagnostics, in emission order. -/
def parse (input : String) : SyntaxElement × List ParseError :=
  let lexed := materialize (lex input)
  let st : PState := ⟨lexed.1, [], (0, 0)⟩
  let fuel := lexed.1.length + 1
  let (es, st) := parseMany (fun _ => false) (parseAnyElement fuel) fuel st
  (SyntaxElement.node .root (EL (es ++ lexed.2.map .token)), st.errors)

/-! ## Rule engine data model and the `indentation` rule

The diagnostic data model is translated from
`crates/ludtwig/src/check/rule.rs` (`Severity`, `CheckNote`,
`CheckSuggestion`, `CheckResult`); the configuration values are modelled from
the spec (section 6, config file defaults).  The rule itself is translated
from `crates/ludtwig/src/check/rules/indentation.rs`. -/

/-- `format.indentation_mode` (spec section 6). -/
inductive IndentationMode where
  | spaces
  | tabs
deriving DecidableEq, Repr

/-- `IndentationMode::corresponding_char`. -/
def IndentationMode.correspondingChar : IndentationMode → Char
  | .spaces => ' '
  | .tabs => '\t'

/-- The `Display` rendering of the indentation mode used inside rule
messages. -/
def IndentationMode.display : IndentationMode → String
  | .spaces => "spaces"
  | .tabs => "tabs"

/-- Modelled from the spec: the `format` section of the configuration
(section 6) restricted to the fields the indentation rule reads. -/
structure FormatConfig where
  indentationMode : IndentationMode
  indentationCount : Nat
  indentChildrenOfBlocks : Bool
deriving DecidableEq, Repr

/-- Modelled from the spec: the configuration (section 6). -/
structure Config where
  format : FormatConfig
deriving DecidableEq, Repr

/-- Modelled from the spec: the default configuration — spaces, indentation
count 4, `indent_children_of_blocks` true (section 6). -/
def defaultConfig : Config := ⟨⟨.spaces, 4, true⟩⟩

/-- Diagnostic severity (rule.rs). -/
inductive Severity where
  | severityError
  | warning
  | help
  | info
deriving DecidableEq, Repr

/-- The primary label of a check result (rule.rs `CheckNote`). -/
structure CheckNote where
  range : Nat × Nat
  message : String
deriving DecidableEq, Repr

/-- A source-range suggestion of a check result (rule.rs
`CheckSuggestion`). -/
structure CheckSuggestion where
  range : Nat × Nat
  replacement : String
  message : String
deriving DecidableEq, Repr

/-- A rule diagnostic (rule.rs `CheckResult`). -/
structure CheckResult where
  ruleName : String
  severity : Severity
  message : String
  primary : Option CheckNote
  suggestions : List CheckSuggestion
deriving DecidableEq, Repr

/-- The expected indentation string of the rule:
`indent_char` repeated `indentation * indent_char_count` times
(indentation.rs lines 72–76). -/
def expectedIndentStr (cfg : Config) (indentation : Nat) : String :=
  String.mk (List.replicate (indentation * cfg.format.indentationCount)
    cfg.format.indentationMode.correspondingChar)

/-- `RuleIndentation::handle_first_token_in_line`
(indentation.rs lines 66–131). -/
def handle_first_token_in_line (cfg : Config) (t : Token) (indentation : Nat)
    (results : List CheckResult) : List CheckResult :=
  let expectedStr := expectedIndentStr cfg indentation
  let amount := Nat.repr (indentation * cfg.format.indentationCount)
  let mode := cfg.format.indentationMode.display
  match t.kind with
  | .tkWhitespace =>
    if t.text ≠ expectedStr then
      results ++ [⟨"indentation", .warning, "Wrong indentation",
        some ⟨(t.start, t.stop),
          "Expected indentation of " ++ amount ++ " " ++ mode ++ " here"⟩,
        [⟨(t.start, t.stop), expectedStr,
          "Change indentation to " ++ amount ++ " " ++ mode⟩]⟩]
    else results
  | _ =>
    if indentation > 0 then
      results ++ [⟨"indentation", .warning, "Missing indentation",
        some ⟨(t.start, t.start),
          "Expected indentation of " ++ amount ++ " " ++ mode ++ " before this"⟩,
        [⟨(t.start, t.start), expectedStr,
          "Add " ++ amount ++ " " ++ mode ++ " indentation"⟩]⟩]
    else results

/-- Mutable traversal state of `RuleIndentation::check_root`. -/
structure IndState where
  lineBreakEncountered : Bool
  indentation : Nat
  results : List CheckResult
deriving DecidableEq, Repr

/-- The condition under which entering / leaving a `BODY` node changes the
indentation level (indentation.rs lines 35–41 and 48–54):
`indent_block_children || !(parent is TWIG_BLOCK)`. -/
def bodyBumpsIndentation (cfg : Config) (parent : Option SyntaxKind) : Bool :=
  cfg.format.indentChildrenOfBlocks || !(parent = some SyntaxKind.twigBlock)

mutual
/-- The `preorder_with_tokens` walk of `RuleIndentation::check_root`
(indentation.rs lines 14–62): line breaks arm the first-token-in-line check,
entering a `BODY` raises the indentation level, leaving it lowers it
again.  `parent` is the kind of the node containing the current element. -/
def indent_walk_element (cfg : Config) (parent : Option SyntaxKind) :
    SyntaxElement → IndState → IndState
  | .token t, st =>
    if t.kind = .tkLineBreak then { st with lineBreakEncountered := true }
    else if st.lineBreakEncountered then
      { st with
          lineBreakEncountered := false
          results := handle_first_token_in_line cfg t st.indentation st.results }
    else { st with lineBreakEncountered := false }
  | .node k cs, st =>
    let st :=
      if (k == SyntaxKind.body) && bodyBumpsIndentation cfg parent then
        { st with indentation := st.indentation + 1 }
      else st
    let st := indent_walk_children cfg (some k) cs st
    if (k == SyntaxKind.body) && bodyBumpsIndentation cfg parent then
      { st with indentation := st.indentation - 1 }
    else st

/-- The walk over an ordered child list. -/
def indent_walk_children (cfg : Config) (parent : Option SyntaxKind) :
    ElementList → IndState → IndState
  | .nil, st => st
  | .cons e rest, st =>
    indent_walk_children cfg parent rest (indent_walk_element cfg parent e st)
end

/-- `RuleIndentation::check_root`: run the walk from the root with an armed
line-break flag and indentation level 0, collecting the rule's
diagnostics. -/
def check_root_indentation (cfg : Config) (root : SyntaxElement) : List CheckResult :=
  (indent_walk_element cfg none root ⟨true, 0, []⟩).results

/-- Apply a single suggestion to the source text: splice the replacement
over the suggestion's range (spec section 4.G). -/
def applySuggestion (source : String) (s : CheckSuggestion) : String :=
  String.mk (source.data.take s.range.1 ++ s.replacement.data ++ source.data.drop s.range.2)

/-! ## Directory walk (`src/main.rs`)

`is_hidden` is translated from main.rs lines 119–129; the recursive walk
models `WalkDir::new(path).into_iter().filter_entry(|e| is_hidden(e))`
together with the file-type and extension checks of `handle_input_path`
(main.rs lines 131–165): `filter_entry` applies the predicate to every
entry, and skipping an entry skips its entire subtree. -/

mutual
/-- A file-system entry: a file or a directory, each with a name (`none`
models a name that is not valid UTF-8, where `OsStr::to_str` fails). -/
inductive FsTree where
  | file (name : Option String)
  | dir (name : Option String) (children : FsForest)
deriving DecidableEq, Repr

/-- The ordered children of a directory. -/
inductive FsForest where
  | nil
  | cons (t : FsTree) (rest : FsForest)
deriving DecidableEq, Repr
end

/-- Rust's `str::starts_with` over the character sequence. -/
def strStartsWith (s pre : String) : Bool := pre.data.isPrefixOf s.data

/-- Rust's `str::ends_with` over the character sequence. -/
def strEndsWith (s suf : String) : Bool := suf.data.isSuffixOf s.data

/-- `is_hidden` (main.rs lines 119–129).  Despite its name the function
returns `true` for entries that should be *kept*: it negates
"name starts with `.` and is neither `.` nor `./`", and a name that is not
valid UTF-8 maps to `unwrap_or(false)` before the negation. -/
def is_hidden (name : Option String) : Bool :=
  !((name.map (fun s => strStartsWith s "." && s != "." && s != "./")).getD false)

/-- The `.twig` extension check of `handle_input_path` (main.rs lines
143–150): non-UTF-8 names are skipped here. -/
def hasTwigExtension (name : Option String) : Bool :=
  (name.map (fun s => strEndsWith s ".twig")).getD false

mutual
/-- The chains of entry names (root entry down to a file) that
`handle_input_path` hands to file processing: `filter_entry` keeps an entry
only if `is_hidden` returns `true` (and prunes the whole subtree otherwise),
directories are skipped by the file-type check, and files are processed only
when the extension check passes. -/
def walkProcessed : FsTree → List (List (Option String))
  | .file n =>
    if is_hidden n then
      if hasTwigExtension n then [[n]] else []
    else []
  | .dir n cs =>
    if is_hidden n then (walkForest cs).map (fun p => n :: p) else []

/-- The walk over a directory's children, in order. -/
def walkForest : FsForest → List (List (Option String))
  | .nil => []
  | .cons t rest => walkProcessed t ++ walkForest rest
end

mutual
/-- All name chains from the root entry down to a file, with no filtering:
the raw structure of the tree. -/
def fileChains : FsTree → List (List (Option String))
  | .file n => [[n]]
  | .dir n cs => (chainsForest cs).map (fun p => n :: p)

/-- All file name chains of a forest, in order. -/
def chainsForest : FsForest → List (List (Option String))
  | .nil => []
  | .cons t rest => fileChains t ++ chainsForest rest
end

/-- The claim's notion of a hidden name: starts with `.` but is neither `.`
nor `./`; a non-UTF-8 name is not hidden. -/
def hiddenName : Option String → Bool
  | some s => strStartsWith s "." && s != "." && s != "./"
  | none => false

/-- The claim's characterisation of a processed chain: no walked component
(the file or any walked ancestor) is hidden, and the file's name is valid
UTF-8 and ends with `.twig`. -/
def claimProcessedChain : List (Option String) → Bool
  | [] => false
  | [n] => !hiddenName n && hasTwigExtension n
  | n :: rest => !hiddenName n && claimProcessedChain rest

/-! ## `vue_block` (`libs/twig/src/parser/vue.rs`)

The function is translated from the source; the nom combinators it is built
from (`delimited`, `multispace0`, `tag`, `take_until`, `alt`, `map`) are
modelled with their documented semantics over a character-list input.  A
parser maps an input to `none` (failure) or to the remaining input paired
with the produced value. -/

/-- The input of the nom-style parsers. -/
abbrev NomInput := List Char

/-- A nom-style parser: remaining input plus value on success. -/
def NParser (α : Type) := NomInput → Option (NomInput × α)

/-- The characters `multispace0` consumes: space, tab, line feed, carriage
return. -/
def isMultispace (c : Char) : Bool :=
  c = ' ' || c = '\t' || c = '\n' || c = '\r'

/-- nom `multispace0`: consume the longest (possibly empty) prefix of
multispace characters. -/
def multispace0 : NParser (List Char) := fun inp =>
  some (inp.dropWhile isMultispace, inp.takeWhile isMultispace)

/-- nom `tag(t)`: succeed exactly when the input starts with `t`. -/
def tagP (t : List Char) : NParser (List Char) := fun inp =>
  if t.isPrefixOf inp then some (inp.drop t.length, t) else none

/-- Index of the first occurrence of `s` as a contiguous subsequence. -/
def findSub (s : List Char) : List Char → Option Nat
  | [] => if s.isPrefixOf ([] : List Char) then some 0 else none
  | c :: rest =>
    if s.isPrefixOf (c :: rest) then some 0
    else (findSub s rest).map (· + 1)

/-- nom `take_until(t)` (complete): take everything up to the first
occurrence of `t`, leaving the occurrence in the input; fail when `t` does
not occur. -/
def takeUntilP (t : List Char) : NParser (List Char) := fun inp =>
  match findSub t inp with
  | some i => some (inp.drop i, inp.take i)
  | none => none

/-- nom `alt((a, b))`: first `a`, on failure `b`. -/
def altP {α : Type} (a b : NParser α) : NParser α := fun inp =>
  match a inp with
  | some r => some r
  | none => b inp

/-- nom `map(p, f)`. -/
def nmap {α β : Type} (p : NParser α) (f : α → β) : NParser β := fun inp =>
  match p inp with
  | some (r, v) => some (r, f v)
  | none => none

/-- nom `delimited(a, b, c)`: run all three in sequence, keep `b`'s
value. -/
def delimitedP {α β γ : Type} (a : NParser α) (b : NParser β) (c : NParser γ) :
    NParser β := fun inp =>
  match a inp with
  | none => none
  | some (r1, _) =>
    match b r1 with
    | none => none
    | some (r2, v) =>
      match c r2 with
      | none => none
      | some (r3, _) => some (r3, v)

/-- Modelled from the spec: the `VueBlock` AST node of `libs/twig/src/ast.rs`
(not among the reviewed sources) — it carries the content slice between the
delimiters. -/
structure VueBlock where
  content : List Char
deriving DecidableEq, Repr

/-- Modelled from the spec: the `HtmlNode` variant produced by `vue_block`. -/
inductive HtmlNode where
  | vueBlock (v : VueBlock)
deriving DecidableEq, Repr

/-- `vue_block` (vue.rs lines 9–25), translated combinator for combinator. -/
def vue_block : NParser HtmlNode :=
  delimitedP multispace0
    (delimitedP (tagP ('\x7b' :: '\x7b' :: []))
      (delimitedP multispace0
        (nmap
          (altP (takeUntilP (' ' :: '\x7d' :: '\x7d' :: []))
            (takeUntilP ('\x7d' :: '\x7d' :: [])))
          (fun content => HtmlNode.vueBlock ⟨content⟩))
        multispace0)
      (tagP ('\x7d' :: '\x7d' :: [])))
    multispace0

/-! ## Statement helpers -/

/-- The kinds of an element's direct children, in order. -/
def childKinds (e : SyntaxElement) : List SyntaxKind :=
  e.childList.map SyntaxElement.kind

/-- The `i`-th direct child of an element (an empty `ERROR` node when out of
range). -/
def nthChildD (e : SyntaxElement) (i : Nat) : SyntaxElement :=
  e.childList.getD i (.node .error .nil)

/-- A trivia-free materialised token, for token-level statements. -/
def ptk (k : SyntaxKind) (s : String) (p : Nat) : PTok := ⟨[], ⟨k, s, p⟩⟩

/-- The `if`/`elseif`/`else`/`endif` end-to-end input of the spec
(section 8). -/
def c1input : String :=
  "\x7b% if t %\x7dA\x7b% elseif u %\x7dB\x7b% else %\x7dC\x7b% endif %\x7d"

/-- The `TWIG_IF` node produced for `c1input` (the single child of the
root). -/
def c1ifNode : SyntaxElement := nthChildD (parse c1input).1 0

/-- The tag keywords recognised by the dispatch of
`parse_twig_block_statement`. -/
def twigTagOpeners : List SyntaxKind :=
  [.tkBlock, .tkIf, .tkSet, .tkFor, .tkExtends, .tkInclude, .tkUse, .tkApply,
   .tkAutoescape, .tkDeprecated]

/-- Token-level input of a `\x7b% block NAME %\x7d x \x7b% endblock WORD %\x7d`
statement, with symbolic name tokens `a` and `b` and the token positions of
the concrete spec example. -/
def c2toks (a b : Token) : List PTok :=
  [ptk .tkCurlyPercent "\x7b%" 0, ptk .tkBlock "block" 3, ⟨[], a⟩,
   ptk .tkPercentCurly "%\x7d" 11, ptk .tkWord "x" 14, ptk .tkCurlyPercent "\x7b%" 16,
   ptk .tkEndblock "endblock" 19, ⟨[], b⟩, ptk .tkPercentCurly "%\x7d" 30]

/-- The `TWIG_BLOCK` tree built from `c2toks a b`: starting block, body, and
ending block carrying the word after `endblock`. -/
def c2tree (a b : Token) : SyntaxElement :=
  .node .twigBlock (EL
    [.node .twigStartingBlock (EL
      [.token ⟨.tkCurlyPercent, "\x7b%", 0⟩, .token ⟨.tkBlock, "block", 3⟩,
       .token a, .token ⟨.tkPercentCurly, "%\x7d", 11⟩]),
     .node .body (EL [.node .htmlText (EL [.token ⟨.tkWord, "x", 14⟩])]),
     .node .twigEndingBlock (EL
      [.token ⟨.tkCurlyPercent, "\x7b%", 16⟩, .token ⟨.tkEndblock, "endblock", 19⟩,
       .token b, .token ⟨.tkPercentCurly, "%\x7d", 30⟩])])

/-- Token-level input of a `\x7b% block NAME %\x7d x \x7b% endblock %\x7d`
statement without a word after `endblock`. -/
def c2toksAbsent (a : Token) : List PTok :=
  [ptk .tkCurlyPercent "\x7b%" 0, ptk .tkBlock "block" 3, ⟨[], a⟩,
   ptk .tkPercentCurly "%\x7d" 11, ptk .tkWord "x" 14, ptk .tkCurlyPercent "\x7b%" 16,
   ptk .tkEndblock "endblock" 19, ptk .tkPercentCurly "%\x7d" 28]

/-- The `TWIG_BLOCK` tree built from `c2toksAbsent a`. -/
def c2treeAbsent (a : Token) : SyntaxElement :=
  .node .twigBlock (EL
    [.node .twigStartingBlock (EL
      [.token ⟨.tkCurlyPercent, "\x7b%", 0⟩, .token ⟨.tkBlock, "block", 3⟩,
       .token a, .token ⟨.tkPercentCurly, "%\x7d", 11⟩]),
     .node .body (EL [.node .htmlText (EL [.token ⟨.tkWord, "x", 14⟩])]),
     .node .twigEndingBlock (EL
      [.token ⟨.tkCurlyPercent, "\x7b%", 16⟩, .token ⟨.tkEndblock, "endblock", 19⟩,
       .token ⟨.tkPercentCurly, "%\x7d", 28⟩])])

/-- Head-kind test on a materialised token list (the value `at_set` takes on
a state holding these tokens). -/
def headKindIn (ks : List SyntaxKind) : List PTok → Bool
  | p :: _ => ks.contains p.tok.kind
  | [] => false

/-- `at_set` only reads the head of the token stream. -/
theorem atSetK_eq_headKindIn (ks : List SyntaxKind) (toks : List PTok)
    (errs : List ParseError) (lr : Nat × Nat) :
    atSetK ks ⟨toks, errs, lr⟩ = headKindIn ks toks := by
  cases toks <;> rfl

/-- Token-level `NAME (, NAME)*` declaration list: word tokens separated by
comma tokens (positions 0, as positions play no role in these statements). -/
def declToks : List String → List PTok
  | [] => []
  | [n] => [ptk .tkWord n 0]
  | n :: rest => ptk .tkWord n 0 :: ptk .tkComma "," 0 :: declToks rest

/-- The tree elements the declaration loop produces from `declToks`. -/
def declNodes : List String → List SyntaxElement
  | [] => []
  | [n] => [.node .twigLiteralName (EL [.token ⟨.tkWord, n, 0⟩])]
  | n :: rest =>
    SyntaxElement.node .twigLiteralName (EL [.token ⟨.tkWord, n, 0⟩]) ::
      SyntaxElement.token ⟨.tkComma, ",", 0⟩ :: declNodes rest

/-- Token-level `EXPR (, EXPR)*` list: number tokens separated by comma
tokens. -/
def exprToks : List String → List PTok
  | [] => []
  | [n] => [ptk .tkNumber n 0]
  | n :: rest => ptk .tkNumber n 0 :: ptk .tkComma "," 0 :: exprToks rest

/-- The tree elements the assignment-expression loop produces from
`exprToks`. -/
def exprNodes : List String → List SyntaxElement
  | [] => []
  | [n] => [.node .twigExpression (EL [.node .twigLiteralNumber (EL [.token ⟨.tkNumber, n, 0⟩])])]
  | n :: rest =>
    SyntaxElement.node .twigExpression
        (EL [.node .twigLiteralNumber (EL [.token ⟨.tkNumber, n, 0⟩])]) ::
      SyntaxElement.token ⟨.tkComma, ",", 0⟩ :: exprNodes rest

/-- The `lastRange` left behind after consuming a `declToks`/`exprToks` run:
the range of the final name/number token, or the initial value when the run
is empty. -/
def lastTokRange : List String → Nat × Nat → Nat × Nat
  | [], lr => lr
  | [n], _ => (0, n.length)
  | _ :: m :: tl, lr => lastTokRange (m :: tl) lr

/-- `lastTokRange` ignores its initial value on a nonempty run. -/
theorem lastTokRange_ne_nil (tl : List String) (h : tl ≠ []) (lr1 lr2 : Nat × Nat) :
    lastTokRange tl lr1 = lastTokRange tl lr2 := by
  induction tl with
  | nil => exact absurd rfl h
  | cons m tl' ih =>
    cases tl' with
    | nil => rfl
    | cons k tl'' => exact ih (by simp)

/-- `declToks` has at least one token per name. -/
theorem declToks_len (ns : List String) : ns.length ≤ (declToks ns).length := by
  induction ns with
  | nil => simp [declToks]
  | cons n tl ih =>
    cases tl with
    | nil => simp [declToks]
    | cons m tl' =>
      simp only [List.length_cons] at ih ⊢
      simp only [declToks, List.length_cons]
      omega

/-- `exprToks` has at least one token per expression. -/
theorem exprToks_len (ms : List String) : ms.length ≤ (exprToks ms).length := by
  induction ms with
  | nil => simp [exprToks]
  | cons n tl ih =>
    cases tl with
    | nil => simp [exprToks]
    | cons m tl' =>
      simp only [List.length_cons] at ih ⊢
      simp only [exprToks, List.length_cons]
      omega

/-- The declaration loop of `parse_twig_set` on a well-formed
`NAME (, NAME)*` run followed by `=` or `%\x7d`: it produces one
`TWIG_LITERAL_NAME` per name with the separating commas, counts the names,
adds no diagnostics, and stops exactly at the follow token. -/
theorem parse_twig_set_decls_eq (ns : List String) (rest : List PTok)
    (errs : List ParseError) :
    ∀ (fuel : Nat) (lr : Nat × Nat),
      headKindIn [.tkEqual, .tkPercentCurly] rest = true →
      ns.length < fuel →
      parse_twig_set_decls fuel ⟨declToks ns ++ rest, errs, lr⟩ =
        (declNodes ns, ns.length, ⟨rest, errs, lastTokRange ns lr⟩) := by
  induction ns with
  | nil =>
    intro fuel lr hrest hfuel
    obtain ⟨f, rfl⟩ : ∃ f, fuel = f + 1 := ⟨fuel - 1, by omega⟩
    cases rest with
    | nil => simp [headKindIn] at hrest
    | cons p ps =>
      have hkind : p.tok.kind = .tkEqual ∨ p.tok.kind = .tkPercentCurly := by
        simpa [headKindIn, List.contains_cons, List.contains_nil] using hrest
      rcases hkind with hk | hk <;>
        simp [parse_twig_set_decls, declToks, declNodes, lastTokRange, atEnd,
          atSetK, hk]
  | cons n tl ih =>
    intro fuel lr hrest hfuel
    obtain ⟨f, rfl⟩ : ∃ f, fuel = f + 1 := ⟨fuel - 1, by omega⟩
    simp only [List.length_cons] at hfuel
    cases rest with
    | nil => simp [headKindIn] at hrest
    | cons p ps =>
      have hkind : p.tok.kind = .tkEqual ∨ p.tok.kind = .tkPercentCurly := by
        simpa [headKindIn, List.contains_cons, List.contains_nil] using hrest
      have htwo : ∀ a : Nat, a < a + 1 + 1 := fun a => by omega
      cases tl with
      | nil =>
        have hih := ih f (0, n.length) hrest (by simp only [List.length_nil]; omega)
        simp only [declToks, List.nil_append] at hih
        rcases hkind with hk | hk <;>
          simp [parse_twig_set_decls, declToks, declNodes, lastTokRange, atEnd,
            atSetK, atK, parse_twig_name, bump, ptokElements, ptk, Token.stop, EL,
            hk, hih]
      | cons m tl' =>
        have hih := ih f (0, ",".length) hrest
          (by simp only [List.length_cons] at hfuel ⊢; omega)
        have hlast : lastTokRange (m :: tl') (0, ",".length) = lastTokRange (m :: tl') lr :=
          lastTokRange_ne_nil (m :: tl') (by simp) _ _
        rcases hkind with hk | hk <;>
          simp [parse_twig_set_decls, declToks, declNodes, lastTokRange, atEnd,
            atSetK, atK, parse_twig_name, bump, ptokElements, ptk, Token.stop, EL,
            hk, hih, hlast, htwo] <;>
          omega

/-- The assignment-expression loop of `parse_twig_set` on a well-formed
`EXPR (, EXPR)*` run of number literals followed by `%\x7d`: it produces one
`TWIG_EXPRESSION` per number with the separating commas, counts the
expressions, adds no diagnostics, and stops exactly at the follow token. -/
theorem parse_twig_set_exprs_eq (ms : List String) (rest : List PTok)
    (errs : List ParseError) :
    ∀ (fuel : Nat) (lr : Nat × Nat),
      headKindIn [.tkPercentCurly] rest = true →
      ms.length < fuel →
      parse_twig_set_exprs fuel ⟨exprToks ms ++ rest, errs, lr⟩ =
        (exprNodes ms, ms.length, ⟨rest, errs, lastTokRange ms lr⟩) := by
  induction ms with
  | nil =>
    intro fuel lr hrest hfuel
    obtain ⟨f, rfl⟩ : ∃ f, fuel = f + 1 := ⟨fuel - 1, by omega⟩
    cases rest with
    | nil => simp [headKindIn] at hrest
    | cons p ps =>
      have hk : p.tok.kind = .tkPercentCurly := by
        simpa [headKindIn, List.contains_cons, List.contains_nil] using hrest
      simp [parse_twig_set_exprs, exprToks, exprNodes, lastTokRange, atEnd, atK, hk]
  | cons n tl ih =>
    intro fuel lr hrest hfuel
    obtain ⟨f, rfl⟩ : ∃ f, fuel = f + 1 := ⟨fuel - 1, by omega⟩
    simp only [List.length_cons] at hfuel
    cases rest with
    | nil => simp [headKindIn] at hrest
    | cons p ps =>
      have hk : p.tok.kind = .tkPercentCurly := by
        simpa [headKindIn, List.contains_cons, List.contains_nil] using hrest
      have htwo : ∀ a : Nat, a < a + 1 + 1 := fun a => by omega
      cases tl with
      | nil =>
        have hih := ih f (0, n.length) hrest (by simp only [List.length_nil]; omega)
        simp only [exprToks, List.nil_append] at hih
        simp [parse_twig_set_exprs, exprToks, exprNodes, lastTokRange, atEnd,
          atK, parse_twig_expression, bump, ptokElements, ptk, Token.stop, EL,
          hk, hih]
      | cons m tl' =>
        have hih := ih f (0, ",".length) hrest
          (by simp only [List.length_cons] at hfuel ⊢; omega)
        have hlast : lastTokRange (m :: tl') (0, ",".length) = lastTokRange (m :: tl') lr :=
          lastTokRange_ne_nil (m :: tl') (by simp) _ _
        simp [parse_twig_set_exprs, exprToks, exprNodes, lastTokRange, atEnd,
          atK, parse_twig_expression, bump, ptokElements, ptk, Token.stop, EL,
          hk, hih, hlast, htwo]
        omega

/-! ## Checked properties -/

/-- C1, counterexample: on the input
`\x7b% if t %\x7dA\x7b% elseif u %\x7dB\x7b% else %\x7dC\x7b% endif %\x7d`
the `TWIG_IF` node has seven direct children, not four as the claim counts
them. -/
theorem C1_counterexample_children_count :
    c1ifNode.childList.length = 7 ∧ ¬ c1ifNode.childList.length = 4 := by decide

/-- C1, amended (the direct children number seven, not four): parsing
`c1input` produces a root with a single `TWIG_IF` node spanning the whole
input whose direct children are, in order and numbering seven:
`TWIG_IF_BLOCK`, `BODY` containing "A", `TWIG_ELSE_IF_BLOCK`, `BODY`
containing "B", `TWIG_ELSE_BLOCK`, `BODY` containing "C",
`TWIG_ENDIF_BLOCK`; the parse emits no diagnostics. -/
theorem C1_twig_if_structure :
    childKinds (parse c1input).1 = [.twigIf] ∧
    c1ifNode.range = (0, c1input.length) ∧
    childKinds c1ifNode =
      [.twigIfBlock, .body, .twigElseIfBlock, .body, .twigElseBlock, .body,
       .twigEndifBlock] ∧
    c1ifNode.childList.length = 7 ∧
    childKinds (nthChildD c1ifNode 1) = [.htmlText] ∧
    (nthChildD c1ifNode 1).sourceText = "A" ∧
    (nthChildD c1ifNode 3).sourceText = "B" ∧
    (nthChildD c1ifNode 5).sourceText = "C" ∧
    (parse c1input).2 = [] := by decide

/-- The indentation end-to-end input of the spec (section 8). -/
def c7input : String := "\x7b% block o %\x7d\n  <div>\n\x7b% endblock %\x7d"

/-- C7: on `c7input` under the default configuration the indentation rule
emits exactly one `Warning`, whose suggestion replaces the two-space
whitespace token before `<div>` (range 14..16) with four spaces — in
particular the line starting with the `endblock` tag (indentation level 0
after leaving the `BODY`) receives no diagnostic — and applying the
suggestion yields the reindented source. -/
theorem C7_indentation_rule :
    check_root_indentation defaultConfig (parse c7input).1 =
      [⟨"indentation", .warning, "Wrong indentation",
        some ⟨(14, 16), "Expected indentation of 4 spaces here"⟩,
        [⟨(14, 16), "    ", "Change indentation to 4 spaces"⟩]⟩] ∧
    applySuggestion c7input ⟨(14, 16), "    ", "Change indentation to 4 spaces"⟩ =
      "\x7b% block o %\x7d\n    <div>\n\x7b% endblock %\x7d" := by decide

/-- C4: a `\x7b%` followed by a token that is none of the recognised tag
keywords produces an `ERROR` node covering only the `\x7b%` token and one
diagnostic at the offending token, which is not consumed (parsing resumes at
the next top-level sentinel); on the concrete input `\x7b% asdf` the root
contains the `ERROR` node covering `\x7b%` and an `HTML_TEXT` node covering
` asdf`, and the diagnostic message starts with
`expected \x27block\x27, \x27if\x27, \x27set\x27 or \x27for\x27`. -/
theorem C4_unknown_tag_keyword (child : PState → List SyntaxElement × PState)
    (t : Token) (rest : List PTok) (errs : List ParseError) (lr : Nat × Nat)
    (h : t.kind ∉ twigTagOpeners) :
    (parse_twig_block_statement child
        ⟨ptk .tkCurlyPercent "\x7b%" 0 :: ⟨[], t⟩ :: rest, errs, lr⟩ =
      ([.node .error (EL [.token ⟨.tkCurlyPercent, "\x7b%", 0⟩])],
        ⟨⟨[], t⟩ :: rest,
          errs ++ [⟨t.start, t.stop,
            "\x27block\x27, \x27if\x27, \x27set\x27 or \x27for\x27 (nothing else supported yet)",
            some (displayKind t.kind)⟩], (0, 2)⟩)) ∧
    childKinds (parse "\x7b% asdf").1 = [.error, .htmlText] ∧
    (nthChildD (parse "\x7b% asdf").1 0).sourceText = "\x7b%" ∧
    (nthChildD (parse "\x7b% asdf").1 1).sourceText = " asdf" ∧
    (parse "\x7b% asdf").2 =
      [⟨3, 7,
        "\x27block\x27, \x27if\x27, \x27set\x27 or \x27for\x27 (nothing else supported yet)",
        some "word"⟩] ∧
    (match (parse "\x7b% asdf").2 with
     | [e] =>
       List.isPrefixOf
         "expected \x27block\x27, \x27if\x27, \x27set\x27 or \x27for\x27".data
         e.message.data
     | _ => false) = true := by
  simp only [twigTagOpeners, List.mem_cons, List.mem_singleton, not_or,
    List.not_mem_nil, not_false_iff, and_true] at h
  obtain ⟨h1, h2, h3, h4, h5, h6, h7, h8, h9, h10⟩ := h
  refine ⟨?_, by decide, by decide, by decide, by decide, by decide⟩
  simp [parse_twig_block_statement, bump, atK, atEnd, addErr, ptokElements, ptk,
    Token.stop, EL, h1, h2, h3, h4, h5, h6, h7, h8, h9, h10]
  all_goals decide

set_option maxHeartbeats 1600000 in
/-- C6: a `\x7b% block NAME %\x7d` opening whose `endblock` is missing
still produces a complete `TWIG_BLOCK` node — the `TWIG_STARTING_BLOCK`, an
empty `BODY` and an empty `TWIG_ENDING_BLOCK` — plus three
reached-end-of-file diagnostics for the missing `\x7b%`, `endblock` and
`%\x7d` tokens, each positioned at the range of the last consumed token; on
the concrete input `\x7b% block my_block %\x7d` the three diagnostics sit at
18..20 and parsing terminates with the full tree. -/
theorem C6_missing_endblock (child : PState → List SyntaxElement × PState)
    (n : Token) (q : Nat) (errs : List ParseError) (lr : Nat × Nat)
    (hn : n.kind = .tkWord) :
    (parse_twig_block_statement child
        ⟨[ptk .tkCurlyPercent "\x7b%" 0, ptk .tkBlock "block" 3, ⟨[], n⟩,
          ptk .tkPercentCurly "%\x7d" q], errs, lr⟩ =
      ([.node .twigBlock (EL
          [.node .twigStartingBlock (EL
            [.token ⟨.tkCurlyPercent, "\x7b%", 0⟩, .token ⟨.tkBlock, "block", 3⟩,
             .token n, .token ⟨.tkPercentCurly, "%\x7d", q⟩]),
           .node .body .nil,
           .node .twigEndingBlock .nil])],
        ⟨[], errs ++
          [⟨q, q + 2, "\x7b%", none⟩, ⟨q, q + 2, "endblock", none⟩,
           ⟨q, q + 2, "%\x7d", none⟩], (q, q + 2)⟩)) ∧
    childKinds (parse "\x7b% block my_block %\x7d").1 = [.twigBlock] ∧
    childKinds (nthChildD (parse "\x7b% block my_block %\x7d").1 0) =
      [.twigStartingBlock, .body, .twigEndingBlock] ∧
    (nthChildD (nthChildD (parse "\x7b% block my_block %\x7d").1 0) 1).childList = [] ∧
    (nthChildD (nthChildD (parse "\x7b% block my_block %\x7d").1 0) 2).childList = [] ∧
    (parse "\x7b% block my_block %\x7d").2 =
      [⟨18, 20, "\x7b%", none⟩, ⟨18, 20, "endblock", none⟩, ⟨18, 20, "%\x7d", none⟩] := by
  obtain ⟨nk, nt, np⟩ := n
  simp only [Token.kind] at hn
  subst hn
  refine ⟨?_, by decide, by decide, by decide, by decide, by decide⟩
  simp [parse_twig_block_statement, parse_twig_block, parse_twig_expression, parseMany,
    bump, expectK, atK, atSetK, atFollowing, atEnd, addErr, addErrAtToken, ptokElements,
    ptk, Token.stop, EL, displayKind]
  all_goals decide

/-- C6 witness: the universal part applied at the name token `my_block`. -/
theorem C6_missing_endblock_witness :
    (Token.mk .tkWord "my_block" 9).kind = .tkWord ∧
    (parse_twig_block_statement (fun s => ([], s))
        ⟨[ptk .tkCurlyPercent "\x7b%" 0, ptk .tkBlock "block" 3,
          ⟨[], ⟨.tkWord, "my_block", 9⟩⟩, ptk .tkPercentCurly "%\x7d" 18], [], (0, 0)⟩).2.errors =
      [⟨18, 20, "\x7b%", none⟩, ⟨18, 20, "endblock", none⟩, ⟨18, 20, "%\x7d", none⟩] :=
  ⟨rfl, by
    rw [(C6_missing_endblock (fun s => ([], s)) ⟨.tkWord, "my_block", 9⟩ 18 [] (0, 0) rfl).1]
    decide⟩

set_option maxHeartbeats 1600000 in
/-- C5: when the `\x7b% block NAME %\x7d` header contains an expression
between the name and `%\x7d` (the shortcut form), the produced `TWIG_BLOCK`
node contains only the `TWIG_STARTING_BLOCK` child — no `BODY`, no
`TWIG_ENDING_BLOCK` — and the tokens following the header are left entirely
unconsumed, so no `endblock` is looked for; without an expression, a `BODY`
of children is parsed until `\x7b% endblock %\x7d` followed by a
`TWIG_ENDING_BLOCK` (shown on `\x7b% block a %\x7d x \x7b% endblock %\x7d`). -/
theorem C5_block_shortcut (child : PState → List SyntaxElement × PState)
    (n e : Token) (q : Nat) (rest : List PTok) (errs : List ParseError) (lr : Nat × Nat)
    (hn : n.kind = .tkWord) (he : e.kind = .tkWord) :
    (parse_twig_block_statement child
        ⟨[ptk .tkCurlyPercent "\x7b%" 0, ptk .tkBlock "block" 3, ⟨[], n⟩, ⟨[], e⟩,
          ptk .tkPercentCurly "%\x7d" q] ++ rest, errs, lr⟩ =
      ([.node .twigBlock (EL
          [.node .twigStartingBlock (EL
            [.token ⟨.tkCurlyPercent, "\x7b%", 0⟩, .token ⟨.tkBlock, "block", 3⟩,
             .token n,
             .node .twigExpression (EL [.node .twigLiteralName (EL [.token e])]),
             .token ⟨.tkPercentCurly, "%\x7d", q⟩])])],
        ⟨rest, errs, (q, q + 2)⟩)) ∧
    childKinds
      (nthChildD (parse "\x7b% block a %\x7d x \x7b% endblock %\x7d").1 0) =
      [.twigStartingBlock, .body, .twigEndingBlock] ∧
    (nthChildD (nthChildD (parse "\x7b% block a %\x7d x \x7b% endblock %\x7d").1 0) 1).sourceText =
      " x" ∧
    (parse "\x7b% block a %\x7d x \x7b% endblock %\x7d").2 = [] := by
  obtain ⟨nk, nt, np⟩ := n
  obtain ⟨ek, et, ep⟩ := e
  simp only [Token.kind] at hn he
  subst hn
  subst he
  refine ⟨?_, by decide, by decide, by decide⟩
  simp [parse_twig_block_statement, parse_twig_block, parse_twig_expression,
    bump, expectK, atK, atSetK, atFollowing, atEnd, addErr, ptokElements,
    ptk, Token.stop, EL, displayKind]
  all_goals decide

/-- C5 witness: the shortcut part applied at the tokens of
`\x7b% block title page_title %\x7d` followed by a further word token, which
stays unconsumed. -/
theorem C5_block_shortcut_witness :
    (Token.mk .tkWord "title" 9).kind = .tkWord ∧
    (Token.mk .tkWord "page_title" 15).kind = .tkWord ∧
    (parse_twig_block_statement (fun s => ([], s))
        ⟨[ptk .tkCurlyPercent "\x7b%" 0, ptk .tkBlock "block" 3,
          ⟨[], ⟨.tkWord, "title", 9⟩⟩, ⟨[], ⟨.tkWord, "page_title", 15⟩⟩,
          ptk .tkPercentCurly "%\x7d" 26] ++ [ptk .tkWord "w" 29], [], (0, 0)⟩).2.toks =
      [ptk .tkWord "w" 29] :=
  ⟨rfl, rfl, by
    rw [(C5_block_shortcut (fun s => ([], s)) ⟨.tkWord, "title", 9⟩
      ⟨.tkWord, "page_title", 15⟩ 26 [ptk .tkWord "w" 29] [] (0, 0) rfl rfl).1]⟩

set_option maxHeartbeats 3200000 in
/-- C2: parsing a `\x7b% block NAME %\x7d x \x7b% endblock WORD %\x7d`
statement attaches exactly one diagnostic of the form
`nothing or same twig block name as opening (NAME)` at the position of the
word after `endblock` exactly when that word differs from the opening name;
with the same word, or no word at all, no diagnostic is emitted; the
`TWIG_BLOCK` node (starting block, body, ending block) is built and nested
correctly in every case.  On the concrete input
`\x7b% block a %\x7d x \x7b% endblock b %\x7d` the single diagnostic sits at
the offset of `b` (28..29) and renders as
`expected nothing or same twig block name as opening (a) but found word`. -/
theorem C2_endblock_name_mismatch (a b : Token)
    (ha : a.kind = .tkWord) (hb : b.kind = .tkWord) :
    (parse_twig_block_statement parse_html_text ⟨c2toks a b, [], (0, 0)⟩ =
      ([c2tree a b],
        ⟨[],
          if b.text = a.text then []
          else
            [⟨b.start, b.stop,
              "nothing or same twig block name as opening (" ++ a.text ++ ")",
              some "word"⟩], (30, 32)⟩)) ∧
    (parse_twig_block_statement parse_html_text ⟨c2toksAbsent a, [], (0, 0)⟩ =
      ([c2treeAbsent a], ⟨[], [], (28, 30)⟩)) ∧
    (parse "\x7b% block a %\x7d x \x7b% endblock b %\x7d").2 =
      [⟨28, 29, "nothing or same twig block name as opening (a)", some "word"⟩] ∧
    (parse "\x7b% block a %\x7d x \x7b% endblock b %\x7d").2.map ParseError.message =
      ["expected nothing or same twig block name as opening (a) but found word"] ∧
    childKinds (nthChildD (parse "\x7b% block a %\x7d x \x7b% endblock b %\x7d").1 0) =
      [.twigStartingBlock, .body, .twigEndingBlock] ∧
    (parse "\x7b% block a %\x7d x \x7b% endblock a %\x7d").2 = [] := by
  obtain ⟨ak, at', ap⟩ := a
  obtain ⟨bk, bt, bp⟩ := b
  simp only [Token.kind] at ha hb
  subst ha
  subst hb
  refine ⟨?_, ?_, by decide, by decide, by decide, by decide⟩
  · by_cases h : bt = at' <;>
      simp [c2toks, c2tree, ptk, parse_twig_block_statement, parse_twig_block,
        parse_html_text, parseMany, bump, expectK, atK, atSetK, atFollowing, atEnd,
        addErr, addErrAtToken, htmlTextSentinel, ptokElements, Token.stop,
        parse_twig_expression, EL, displayKind, h] <;>
      decide
  · simp [c2toksAbsent, c2treeAbsent, ptk, parse_twig_block_statement, parse_twig_block,
      parse_html_text, parseMany, bump, expectK, atK, atSetK, atFollowing, atEnd,
      addErr, addErrAtToken, htmlTextSentinel, ptokElements, Token.stop,
      parse_twig_expression, EL, displayKind]
    all_goals decide

/-- C2 witness: the mismatch part applied at the word tokens `a` (opening)
and `b` (after `endblock`). -/
theorem C2_endblock_name_mismatch_witness :
    (Token.mk .tkWord "a" 9).kind = .tkWord ∧
    (parse_twig_block_statement parse_html_text
        ⟨c2toks ⟨.tkWord, "a", 9⟩ ⟨.tkWord, "b", 28⟩, [], (0, 0)⟩).2.errors =
      [⟨28, 29, "nothing or same twig block name as opening (a)", some "word"⟩] :=
  ⟨rfl, by
    rw [(C2_endblock_name_mismatch ⟨.tkWord, "a", 9⟩ ⟨.tkWord, "b", 28⟩ rfl rfl).1]
    decide⟩

set_option maxHeartbeats 1600000 in
/-- C3: in a `\x7b% set %\x7d` statement with an `=` sign, a diagnostic is
emitted if and only if the number of right-hand expressions differs from the
number of declared names, and it reads
`a total of N twig expressions (same amount as declarations) instead of M`
with `N` the declaration count and `M` the expression count; the
`TWIG_ASSIGNMENT` node contains all the names and all the expressions.  On
the concrete input `\x7b% set a, b, c = 1, 2 %\x7d` the diagnostic carries
`a total of 3 twig expressions (same amount as declarations) instead of 2`
and the assignment node holds the three names and the two expressions, while
the matching-count input `\x7b% set a, b = 1, 2 %\x7d` yields no
diagnostic. -/
theorem C3_set_expression_count (child : PState → List SyntaxElement × PState)
    (m : List SyntaxElement) (ns ms : List String) (q : Nat) (lr0 : Nat × Nat)
    (hns : ns ≠ []) :
    (parse_twig_set child m
        ⟨ptk .tkSet "set" 3 :: (declToks ns ++ (ptk .tkEqual "=" 7 :: (exprToks ms ++
          [ptk .tkPercentCurly "%\x7d" q]))), [], lr0⟩ =
      (.node .twigSet (EL [.node .twigSetBlock (EL
          (m ++ SyntaxElement.token ⟨.tkSet, "set", 3⟩ ::
           SyntaxElement.node .twigAssignment
             (EL (declNodes ns ++ SyntaxElement.token ⟨.tkEqual, "=", 7⟩ :: exprNodes ms)) ::
           [SyntaxElement.token ⟨.tkPercentCurly, "%\x7d", q⟩]))]),
        ⟨[], (if ns.length = ms.length then [] else
          [⟨q, q + 2, "a total of " ++ Nat.repr ns.length ++
            " twig expressions (same amount as declarations) instead of " ++
            Nat.repr ms.length, some "%\x7d"⟩]), (q, q + 2)⟩)) ∧
    (parse "\x7b% set a, b, c = 1, 2 %\x7d").2 =
      [⟨22, 24, "a total of 3 twig expressions (same amount as declarations) instead of 2",
        some "%\x7d"⟩] ∧
    (parse "\x7b% set a, b, c = 1, 2 %\x7d").2.map ParseError.message =
      ["expected a total of 3 twig expressions (same amount as declarations) instead of 2 but found %\x7d"] ∧
    (childKinds (nthChildD (nthChildD (nthChildD (parse "\x7b% set a, b, c = 1, 2 %\x7d").1 0) 0) 3)).count
      .twigLiteralName = 3 ∧
    (childKinds (nthChildD (nthChildD (nthChildD (parse "\x7b% set a, b, c = 1, 2 %\x7d").1 0) 0) 3)).count
      .twigExpression = 2 ∧
    (parse "\x7b% set a, b = 1, 2 %\x7d").2 = [] := by
  refine ⟨?_, by decide, by decide, by decide, by decide, by decide⟩
  have h1 := parse_twig_set_decls_eq ns
    ((⟨[], ⟨.tkEqual, "=", 7⟩⟩ : PTok) ::
      (exprToks ms ++ [(⟨[], ⟨.tkPercentCurly, "%\x7d", q⟩⟩ : PTok)])) []
    ((declToks ns).length + ((exprToks ms).length + 1 + 1) + 1)
    (3, 3 + "set".length)
    (by simp [headKindIn])
    (by have := declToks_len ns
        omega)
  have h2 := parse_twig_set_exprs_eq ms [(⟨[], ⟨.tkPercentCurly, "%\x7d", q⟩⟩ : PTok)] []
    ((exprToks ms).length + 1 + 1)
    (7, 7 + "=".length)
    (by simp [headKindIn])
    (by have := exprToks_len ms
        omega)
  have hns' : ¬ (ns.length = 0) := by simpa [List.length_eq_zero] using hns
  have hlen : ("%\x7d" : String).length = 2 := rfl
  by_cases hc : ns.length = ms.length
  · have hms' : ¬ (ms = []) := by
      intro he
      subst he
      simp only [List.length_nil] at hc
      exact hns' hc
    simp [parse_twig_set, bump, ptk, ptokElements, Token.stop, atK, atSetK, atEnd,
      addErr, displayKind, EL, h1, h2, hns', hms', hc, hlen, parseMany, expectK]
  · simp [parse_twig_set, bump, ptk, ptokElements, Token.stop, atK, atSetK, atEnd,
      addErr, displayKind, EL, h1, h2, hns', hc, hlen, parseMany, expectK]

/-- C3 witness: the universal part applied at three names and two number
expressions. -/
theorem C3_set_expression_count_witness :
    (["a", "b", "c"] : List String) ≠ [] ∧
    (parse_twig_set (fun s => ([], s)) []
        ⟨ptk .tkSet "set" 3 :: (declToks ["a", "b", "c"] ++ (ptk .tkEqual "=" 7 ::
          (exprToks ["1", "2"] ++ [ptk .tkPercentCurly "%\x7d" 22]))), [], (0, 2)⟩).2.errors =
      [⟨22, 24, "a total of 3 twig expressions (same amount as declarations) instead of 2",
        some "%\x7d"⟩] :=
  ⟨by decide, by
    rw [(C3_set_expression_count (fun s => ([], s)) [] ["a", "b", "c"] ["1", "2"] 22 (0, 2)
      (by decide)).1]
    decide⟩

set_option maxHeartbeats 1600000 in
/-- C9: in a `\x7b% set %\x7d` statement without an `=` sign (the capturing
form), the parser emits the diagnostic
`= followed by N twig expressions` (`N` the number of declared names)
exactly when more than one name was declared, and still parses the body and
the `\x7b% endset %\x7d` ending block; with exactly one declared name the
diagnostic is absent.  Concretely,
`\x7b% set a, b %\x7dx\x7b% endset %\x7d` yields the one diagnostic
`= followed by 2 twig expressions` with the body and ending block in place,
and `\x7b% set a %\x7dx\x7b% endset %\x7d` yields none. -/
theorem C9_capturing_set_multiple_names (child : PState → List SyntaxElement × PState)
    (m : List SyntaxElement) (ns : List String) (hns : ns ≠ []) :
    (parse_twig_set child m
        ⟨ptk .tkSet "set" 3 :: (declToks ns ++
          [ptk .tkPercentCurly "%\x7d" 14, ptk .tkCurlyPercent "\x7b%" 16,
           ptk .tkEndset "endset" 19, ptk .tkPercentCurly "%\x7d" 26]), [], (0, 2)⟩ =
      (.node .twigSet (EL
        [.node .twigSetBlock (EL
          (m ++ SyntaxElement.token ⟨.tkSet, "set", 3⟩ ::
           SyntaxElement.node .twigAssignment (EL (declNodes ns)) ::
           [SyntaxElement.token ⟨.tkPercentCurly, "%\x7d", 14⟩])),
         .node .body .nil,
         .node .twigEndsetBlock (EL
          [.token ⟨.tkCurlyPercent, "\x7b%", 16⟩, .token ⟨.tkEndset, "endset", 19⟩,
           .token ⟨.tkPercentCurly, "%\x7d", 26⟩])]),
        ⟨[], (if 1 < ns.length then
          [⟨14, 16, "= followed by " ++ Nat.repr ns.length ++ " twig expressions",
            some "%\x7d"⟩]
          else []), (26, 28)⟩)) ∧
    (parse "\x7b% set a, b %\x7dx\x7b% endset %\x7d").2 =
      [⟨12, 14, "= followed by 2 twig expressions", some "%\x7d"⟩] ∧
    (parse "\x7b% set a, b %\x7dx\x7b% endset %\x7d").2.map ParseError.message =
      ["expected = followed by 2 twig expressions but found %\x7d"] ∧
    childKinds (nthChildD (parse "\x7b% set a, b %\x7dx\x7b% endset %\x7d").1 0) =
      [.twigSetBlock, .body, .twigEndsetBlock] ∧
    (nthChildD (nthChildD (parse "\x7b% set a, b %\x7dx\x7b% endset %\x7d").1 0) 1).sourceText =
      "x" ∧
    (parse "\x7b% set a %\x7dx\x7b% endset %\x7d").2 = [] := by
  refine ⟨?_, by decide, by decide, by decide, by decide, by decide⟩
  have h1 := parse_twig_set_decls_eq ns
    [(⟨[], ⟨.tkPercentCurly, "%\x7d", 14⟩⟩ : PTok),
     (⟨[], ⟨.tkCurlyPercent, "\x7b%", 16⟩⟩ : PTok),
     (⟨[], ⟨.tkEndset, "endset", 19⟩⟩ : PTok),
     (⟨[], ⟨.tkPercentCurly, "%\x7d", 26⟩⟩ : PTok)] []
    ((declToks ns).length + (1 + 1 + 1 + 1) + 1)
    (3, 3 + "set".length)
    (by simp [headKindIn])
    (by have := declToks_len ns
        omega)
  have hns' : ¬ (ns.length = 0) := by simpa [List.length_eq_zero] using hns
  by_cases hc : 1 < ns.length <;>
    simp [parse_twig_set, bump, ptk, ptokElements, Token.stop, atK, atSetK, atEnd,
      atFollowing, addErr, displayKind, EL, h1, hns', hc, parseMany, expectK] <;>
    decide

/-- C9 witness: the universal part applied at the two names `a`, `b`. -/
theorem C9_capturing_set_multiple_names_witness :
    (["a", "b"] : List String) ≠ [] ∧
    (parse_twig_set (fun s => ([], s)) []
        ⟨ptk .tkSet "set" 3 :: (declToks ["a", "b"] ++
          [ptk .tkPercentCurly "%\x7d" 14, ptk .tkCurlyPercent "\x7b%" 16,
           ptk .tkEndset "endset" 19, ptk .tkPercentCurly "%\x7d" 26]), [], (0, 2)⟩).2.errors =
      [⟨14, 16, "= followed by 2 twig expressions", some "%\x7d"⟩] :=
  ⟨by decide, by
    rw [(C9_capturing_set_multiple_names (fun s => ([], s)) [] ["a", "b"] (by decide)).1]
    decide⟩

/-- The misnamed `is_hidden` keeps exactly the entries whose name is not
hidden in the claim's sense. -/
theorem is_hidden_eq (n : Option String) : is_hidden n = !hiddenName n := by
  cases n <;> rfl

/-- Every chain of `chainsForest` ends at a file and is nonempty. -/
theorem chainsForest_ne_nil : ∀ f : FsForest, ∀ c ∈ chainsForest f, c ≠ [] := by
  refine @FsForest.rec (fun t => ∀ c ∈ fileChains t, c ≠ [])
    (fun f => ∀ c ∈ chainsForest f, c ≠ []) ?_ ?_ ?_ ?_
  · intro n c hc
    simp only [fileChains, List.mem_singleton] at hc
    subst hc
    simp
  · intro n cs ih c hc
    simp only [fileChains, List.mem_map] at hc
    obtain ⟨c', _, rfl⟩ := hc
    simp
  · intro c hc
    simp [chainsForest] at hc
  · intro t rest iht ihrest c hc
    simp only [chainsForest, List.mem_append] at hc
    rcases hc with h | h
    · exact iht c h
    · exact ihrest c h

/-- Peeling one ancestor off the claim's chain predicate. -/
theorem claim_cons (n : Option String) (c : List (Option String)) (h : c ≠ []) :
    claimProcessedChain (n :: c) = (!hiddenName n && claimProcessedChain c) := by
  cases c with
  | nil => exact absurd rfl h
  | cons m tl => rfl

/-- C8: the directory walk hands an entry to file processing exactly when it
is a file whose UTF-8 name ends with `.twig` and neither it nor any walked
ancestor has a hidden name — hidden meaning it starts with `.` but is
neither `.` nor `./`, with non-UTF-8 names never counting as hidden (they
fall out at the extension check instead). -/
theorem C8_walk_processed_filter :
    (∀ t : FsTree, walkProcessed t = (fileChains t).filter claimProcessedChain) ∧
    hiddenName none = false ∧ hasTwigExtension none = false ∧
    hiddenName (some ".") = false ∧ hiddenName (some "./") = false ∧
    hiddenName (some ".git") = true ∧ hasTwigExtension (some "a.twig") = true := by
  refine ⟨?_, by decide, by decide, by decide, by decide, by decide, by decide⟩
  refine @FsTree.rec (fun t => walkProcessed t = (fileChains t).filter claimProcessedChain)
    (fun f => walkForest f = (chainsForest f).filter claimProcessedChain) ?_ ?_ ?_ ?_
  · intro n
    cases hh : hiddenName n <;> cases he : hasTwigExtension n <;>
      simp [walkProcessed, fileChains, claimProcessedChain, List.filter,
        is_hidden_eq, hh, he]
  · intro n cs ih
    have hcg : (chainsForest cs).filter (claimProcessedChain ∘ (fun p => n :: p)) =
        (chainsForest cs).filter (fun c => !hiddenName n && claimProcessedChain c) :=
      List.filter_congr (fun c hc => by
        simp only [Function.comp_apply]
        exact claim_cons n c (chainsForest_ne_nil cs c hc))
    cases hh : hiddenName n
    · simp [walkProcessed, fileChains, is_hidden_eq, hh, ih, List.filter_map, hcg]
    · simp [walkProcessed, fileChains, is_hidden_eq, hh, List.filter_map, hcg]
  · simp [walkForest, chainsForest]
  · intro t rest iht ihrest
    simp [walkForest, chainsForest, List.filter_append, iht, ihrest]

/-- `dropWhile` skips a fully-satisfying prefix. -/
theorem dropWhile_append_of_all {p : Char → Bool} (a b : List Char)
    (h : ∀ c ∈ a, p c = true) : (a ++ b).dropWhile p = b.dropWhile p := by
  induction a with
  | nil => rfl
  | cons c rest ih =>
    have hc : p c = true := h c (by simp)
    simp only [List.cons_append, List.dropWhile_cons, hc, if_true]
    exact ih (fun x hx => h x (by simp [hx]))

/-- `dropWhile` stops at a failing head. -/
theorem dropWhile_cons_neg {p : Char → Bool} (c : Char) (l : List Char)
    (h : p c = false) : (c :: l).dropWhile p = c :: l := by
  simp [List.dropWhile_cons, h]

/-- A successful `findSub` points at an occurrence. -/
theorem findSub_prefix (s : List Char) :
    ∀ (l : List Char) (i : Nat), findSub s l = some i → s.isPrefixOf (l.drop i) = true := by
  intro l
  induction l with
  | nil =>
    intro i h
    simp only [findSub] at h
    split at h
    · rename_i hp
      cases h
      simpa using hp
    · cases h
  | cons c rest ih =>
    intro i h
    simp only [findSub] at h
    split at h
    · rename_i hp
      cases h
      simpa using hp
    · cases hfs : findSub s rest with
      | none => rw [hfs] at h; cases h
      | some j =>
        rw [hfs] at h
        simp only [Option.map_some'] at h
        cases h
        simpa using ih j hfs

/-- An occurrence makes `findSub` succeed. -/
theorem findSub_of_prefix (s : List Char) :
    ∀ (l : List Char) (i : Nat), s.isPrefixOf (l.drop i) = true → findSub s l ≠ none := by
  intro l
  induction l with
  | nil =>
    intro i h
    simp only [List.drop_nil] at h
    simp [findSub, h]
  | cons c rest ih =>
    intro i h
    cases i with
    | zero =>
      simp only [List.drop_zero] at h
      simp [findSub, h]
    | succ j =>
      simp only [List.drop_succ_cons] at h
      have := ih j h
      simp only [findSub]
      split
      · simp
      · simpa using this

/-- An occurrence of a pattern with a non-skipped head survives
`dropWhile`. -/
theorem findSub_dropWhile {p : Char → Bool} (s : List Char) (hs : s ≠ [])
    (hhead : p s.head! = false) :
    ∀ l : List Char, findSub s l ≠ none → findSub s (l.dropWhile p) ≠ none := by
  intro l
  induction l with
  | nil => exact fun h => h
  | cons c rest ih =>
    intro hocc
    cases hp : p c with
    | false => simpa [dropWhile_cons_neg c rest hp] using hocc
    | true =>
      simp only [List.dropWhile_cons, hp, if_true]
      apply ih
      simp only [findSub] at hocc
      split at hocc
      · rename_i hpre
        exfalso
        cases s with
        | nil => exact hs rfl
        | cons sc stl =>
          simp only [List.isPrefixOf, List.head!] at hpre hhead
          have : sc = c := by
            have := hpre
            simp only [Bool.and_eq_true, beq_iff_eq] at this
            exact this.1
          rw [this] at hhead
          rw [hhead] at hp
          cases hp
      · intro hn
        rw [hn] at hocc
        simp at hocc

/-- The closing delimiter preceded by one space. -/
def spClose : List Char := ' ' :: '\x7d' :: '\x7d' :: []

/-- The bare closing delimiter. -/
def ppClose : List Char := '\x7d' :: '\x7d' :: []

/-- The claim's characterisation of the content `vue_block` returns: the
input after the delimiter's leading whitespace, cut at the first occurrence
of the space-prefixed closing delimiter when one exists, otherwise at the
first occurrence of the bare closing delimiter. -/
def vueContentSpec (r' : List Char) : List Char :=
  match findSub spClose r' with
  | some i => r'.take i
  | none =>
    match findSub ppClose r' with
    | some j => r'.take j
    | none => []

set_option maxHeartbeats 1600000 in
/-- C10: on any input made of optional whitespace, the opening delimiter,
optional whitespace, some content, the closing delimiter and optional
trailing whitespace, `vue_block` succeeds and returns a `VueBlock` whose
content is the text after the delimiter's leading whitespace up to the first
occurrence of the space-prefixed closing delimiter when one exists,
otherwise up to the first occurrence of the bare closing delimiter — so
exactly one space before the closing delimiter is excluded while any
further whitespace inside the delimiters is kept.  Two concrete instances
witness the two branches. -/
theorem C10_vue_block_content (ws1 ws2 content ws3 : List Char)
    (h1 : ∀ c ∈ ws1, isMultispace c = true)
    (_h2 : ∀ c ∈ ws2, isMultispace c = true)
    (_h3 : ∀ c ∈ ws3, isMultispace c = true) :
    (∃ rest, vue_block (ws1 ++ '\x7b' :: '\x7b' :: (ws2 ++ content ++ '\x7d' :: '\x7d' :: ws3)) =
      some (rest, .vueBlock
        ⟨vueContentSpec ((ws2 ++ content ++ '\x7d' :: '\x7d' :: ws3).dropWhile isMultispace)⟩)) ∧
    vue_block " \x7b\x7b a \x7d\x7d ".data = some ([], .vueBlock ⟨['a']⟩) ∧
    vue_block "\x7b\x7ba\x7d\x7db \x7d\x7d".data =
      some ([], .vueBlock ⟨('a' :: '\x7d' :: '\x7d' :: 'b' :: [])⟩) := by
  refine ⟨?_, by decide, by decide⟩
  have step1 : (ws1 ++ '\x7b' :: '\x7b' ::
        (ws2 ++ content ++ '\x7d' :: '\x7d' :: ws3)).dropWhile isMultispace
      = '\x7b' :: '\x7b' :: (ws2 ++ content ++ '\x7d' :: '\x7d' :: ws3) := by
    rw [dropWhile_append_of_all ws1 _ h1]
    exact dropWhile_cons_neg _ _ rfl
  have hocc : findSub ppClose (ws2 ++ content ++ '\x7d' :: '\x7d' :: ws3) ≠ none := by
    apply findSub_of_prefix ppClose _ (ws2 ++ content).length
    have hd : (ws2 ++ content ++ '\x7d' :: '\x7d' :: ws3).drop (ws2 ++ content).length
        = '\x7d' :: '\x7d' :: ws3 := by
      rw [List.drop_left]
    rw [hd]
    simp [ppClose, List.isPrefixOf]
  have hocc' : findSub ppClose
      ((ws2 ++ content ++ '\x7d' :: '\x7d' :: ws3).dropWhile isMultispace) ≠ none :=
    findSub_dropWhile ppClose (by simp [ppClose]) rfl _ hocc
  cases hsp : findSub spClose
      ((ws2 ++ content ++ '\x7d' :: '\x7d' :: ws3).dropWhile isMultispace) with
  | some i =>
    have hpre := findSub_prefix spClose _ i hsp
    obtain ⟨t, ht⟩ := List.isPrefixOf_iff_prefix.mp hpre
    refine ⟨t.dropWhile isMultispace, ?_⟩
    simp only [List.append_assoc, spClose, ppClose] at hsp ht step1
    simp only [vue_block, delimitedP, multispace0, nmap, altP, takeUntilP, tagP,
      vueContentSpec, spClose, ppClose, List.append_assoc]
    simp [← ht, hsp, step1, List.isPrefixOf, List.dropWhile_cons, isMultispace]
  | none =>
    have hpj : ∃ j, findSub ppClose
        ((ws2 ++ content ++ '\x7d' :: '\x7d' :: ws3).dropWhile isMultispace) = some j := by
      cases hfs : findSub ppClose
          ((ws2 ++ content ++ '\x7d' :: '\x7d' :: ws3).dropWhile isMultispace) with
      | none => exact absurd hfs hocc'
      | some j => exact ⟨j, rfl⟩
    obtain ⟨j, hpj⟩ := hpj
    have hpre := findSub_prefix ppClose _ j hpj
    obtain ⟨t, ht⟩ := List.isPrefixOf_iff_prefix.mp hpre
    refine ⟨t.dropWhile isMultispace, ?_⟩
    simp only [List.append_assoc, spClose, ppClose] at hsp hpj ht step1
    simp only [vue_block, delimitedP, multispace0, nmap, altP, takeUntilP, tagP,
      vueContentSpec, spClose, ppClose, List.append_assoc]
    simp [← ht, hsp, hpj, step1, List.isPrefixOf, List.dropWhile_cons, isMultispace]

/-- C10 witness: the universal part applied at a one-space opening, bare
content `a`, and no trailing whitespace. -/
theorem C10_vue_block_content_witness :
    (∀ c ∈ ([' '] : List Char), isMultispace c = true) ∧
    (∃ rest, vue_block ([' '] ++ '\x7b' :: '\x7b' :: ([] ++ ['a'] ++ '\x7d' :: '\x7d' :: [])) =
      some (rest, .vueBlock
        ⟨vueContentSpec (([] ++ ['a'] ++ '\x7d' :: '\x7d' :: ([] : List Char)).dropWhile isMultispace)⟩)) :=
  ⟨by decide,
    (C10_vue_block_content [' '] [] ['a'] [] (by decide) (by decide) (by decide)).1⟩

/-- C4 witness: the universal part applied at the word token `asdf`. -/
theorem C4_unknown_tag_keyword_witness :
    (Token.mk .tkWord "asdf" 3).kind ∉ twigTagOpeners ∧
    (parse_twig_block_statement (fun s => ([], s))
        ⟨ptk .tkCurlyPercent "\x7b%" 0 :: ⟨[], ⟨.tkWord, "asdf", 3⟩⟩ :: [], [], (0, 0)⟩ =
      ([.node .error (EL [.token ⟨.tkCurlyPercent, "\x7b%", 0⟩])],
        ⟨⟨[], ⟨.tkWord, "asdf", 3⟩⟩ :: [],
          [⟨3, 7,
            "\x27block\x27, \x27if\x27, \x27set\x27 or \x27for\x27 (nothing else supported yet)",
            some "word"⟩], (0, 2)⟩)) :=
  ⟨by decide,
    (C4_unknown_tag_keyword (fun s => ([], s)) ⟨.tkWord, "asdf", 3⟩ [] [] (0, 0)
      (by decide)).1⟩

end Ludtwig
